import Mathlib

/-!
Verification of the modrinth-mod-updater reconciliation engine.

This file gives a shallow embedding of the Python sources
(`src/mod_manager.py`, `src/main.py`, `src/updater.py`) and proves or
refutes the specification's claims about them.

Modelling conventions:
* File bytes are abstracted by their digests and size (`RemoteContent`):
  the program only ever compares SHA-1 digests and byte counts of file
  contents, never the bytes themselves.
* The network (`requests` / `aiohttp`) is a pure map from URL to an
  optional content; `none` models any transfer failure (network error or
  non-success status).  The catalog client (`get_latest_version_info`)
  is an external collaborator and is modelled as a pure map from
  `(projectId, gameVersion, loader)` to an optional release descriptor.
* The filesystem is an association list from path to content; paths use
  `/` as separator (the POSIX model of `os.path.join` / `os.sep`).
* Python exceptions that the code catches are modelled as `Option`
  results; the one uncaught exception in the reconciler
  (`latest_version_info['files'][0]` on an empty file list,
  mod_manager.py line 196) is modelled by a `crashed` flag that stops
  the run.
-/

namespace ModUpdater

/-- Digest-and-size view of a file's bytes. -/
structure RemoteContent where
  sha1 : String
  sha512 : String
  size : Nat
deriving DecidableEq, Repr

/-- Filesystem: association list from path to content. -/
abbrev Fs := List (String × RemoteContent)

/-- Filesystem lookup (`os.path.exists` / reading a file). -/
def fsFind : Fs → String → Option RemoteContent
  | [], _ => none
  | (q, c) :: r, p => if q = p then some c else fsFind r p

/-- Filesystem write: `open(path, 'wb')` followed by writing `c`. -/
def fsInsert (fs : Fs) (p : String) (c : RemoteContent) : Fs :=
  (p, c) :: fs.filter (fun kv => kv.1 ≠ p)

/-- A single file of a release descriptor (Modrinth version `files[]`). -/
structure VFile where
  filename : String
  url : String
  primary : Bool
deriving DecidableEq, Repr

/-- Release descriptor returned by the catalog
(`get_latest_version_info`). -/
structure Release where
  version_number : String
  files : List VFile
deriving DecidableEq, Repr

/-- One row of the `mod_versions` SQLite table (src/db.py).
`sha1`/`sha512` are `Option` because the code inserts Python `None`
when `download_and_calculate_hashes` failed. -/
structure CacheRecord where
  project_id : String
  version_number : String
  file_url : String
  file_size : Nat
  sha1 : Option String
  sha512 : Option String
  mod_loader : String
deriving DecidableEq, Repr

/-- `SELECT ... FROM mod_versions WHERE project_id = ?` (first match). -/
def findRec : List CacheRecord → String → Option CacheRecord
  | [], _ => none
  | r :: rest, pid => if r.project_id = pid then some r else findRec rest pid

/-- `INSERT ... ON CONFLICT(project_id) DO UPDATE` upsert semantics. -/
def upsertRec (db : List CacheRecord) (r : CacheRecord) : List CacheRecord :=
  if db.any (fun x => x.project_id = r.project_id) then
    db.map (fun x => if x.project_id = r.project_id then r else x)
  else
    db ++ [r]

/-- `hashes` sub-dictionary of a manifest file entry. -/
structure Hashes where
  sha1 : Option String
  sha512 : Option String
deriving DecidableEq, Repr

/-- One element of the manifest's `files[]` array, with the fields the
program reads or writes. `path` and `hashes` are optional because the
code can store Python `None` / create the dict on demand. -/
structure FileEntry where
  downloads : List String
  path : Option String
  hashes : Option Hashes
  fileSize : Nat
  envServer : String
  envClient : String
deriving DecidableEq, Repr

/-- External environment of one run: network, catalog and the
filesystem/backup failure oracles. -/
structure Env where
  /-- `requests.get` / `aiohttp` content fetch: `none` is any transfer
  failure (network error or non-success status). -/
  net : String → Option RemoteContent
  /-- `true` when opening/writing the given path raises (filesystem
  error), which the code catches. -/
  writeFails : String → Bool
  /-- The catalog client `get_latest_version_info(pid, gv, loader)`:
  latest compatible release, or `none` (network failure or no
  compatible release). -/
  cat : String → String → String → Option Release

/-- Additional environment of the packaging workflow (backup and
overrides oracles); the reconciler never sees these. -/
structure WorkflowEnv where
  /-- the reconciliation environment. -/
  env : Env
  /-- `os.path.exists(current_dir)` at backup time. -/
  currentDirExists : Bool
  /-- whether `shutil.copytree` succeeds in `backup_current_version`. -/
  backupOk : Bool
  /-- the timestamped backup destination path. -/
  backupName : String
  /-- `os.listdir(overrides_dir)` non-empty. -/
  overridesNonEmpty : Bool

/-- Value of a hex digit character, for percent-decoding. -/
def hexVal (c : Char) : Option Nat :=
  if '0' ≤ c ∧ c ≤ '9' then some (c.toNat - '0'.toNat)
  else if 'a' ≤ c ∧ c ≤ 'f' then some (c.toNat - 'a'.toNat + 10)
  else if 'A' ≤ c ∧ c ≤ 'F' then some (c.toNat - 'A'.toNat + 10)
  else none

/-- `urllib.parse.unquote` on characters: decodes `%XX` escapes and
leaves malformed escapes untouched (single-byte model). -/
def unquoteChars : List Char → List Char
  | [] => []
  | '%' :: h1 :: h2 :: rest =>
    match hexVal h1, hexVal h2 with
    | some v1, some v2 => Char.ofNat (16 * v1 + v2) :: unquoteChars rest
    | _, _ => '%' :: unquoteChars (h1 :: h2 :: rest)
  | c :: rest => c :: unquoteChars rest

/-- `urllib.parse.unquote`. -/
def unquote (s : String) : String := String.mk (unquoteChars s.toList)

/-- Python `str.split(sep)` on characters (single-character separator,
empty segments preserved; `""` yields `[""]`). -/
def splitOnChar (sep : Char) : List Char → List (List Char)
  | [] => [[]]
  | c :: rest =>
    let r := splitOnChar sep rest
    if c = sep then [] :: r
    else
      match r with
      | [] => [[c]]
      | h :: t => (c :: h) :: t

/-- Python `url.split('/')`. -/
def pySplit (s : String) (sep : Char) : List String :=
  (splitOnChar sep s.toList).map String.mk

/-- `l` is a prefix of the second list. -/
def isPrefixL : List Char → List Char → Bool
  | [], _ => true
  | _ :: _, [] => false
  | p :: ps, c :: cs => p = c && isPrefixL ps cs

/-- Python `str.replace` on characters: replace every non-overlapping
occurrence of `pat`, left to right.  `fuel` bounds the recursion; one
character is consumed per step, so `fuel = length` suffices. -/
def replaceFuel (pat repl : List Char) : Nat → List Char → List Char
  | 0, l => l
  | fuel + 1, l =>
    match l with
    | [] => []
    | c :: cs =>
      if isPrefixL pat l = true then repl ++ replaceFuel pat repl fuel (l.drop pat.length)
      else c :: replaceFuel pat repl fuel cs

/-- Python `s.replace(pat, repl)`. -/
def pyReplace (s pat repl : String) : String :=
  String.mk (replaceFuel pat.toList repl.toList s.toList.length s.toList)

/-- `url.split('/')[-1]` decoded: the filename part of a download URL. -/
def urlFilename (url : String) : String :=
  unquote ((pySplit url '/').getLastD "")

/-- `os.path.join` in the POSIX model. -/
def pathJoin (a b : String) : String := a ++ "/" ++ b

/-- `get_relative_path` (mod_manager.py lines 14-22): strips
`base_dir + os.sep` and normalises separators (identity here). -/
def get_relative_path (filePath : Option String) (baseDir : String := "current") :
    Option String :=
  match filePath with
  | some p => some (pyReplace p (baseDir ++ "/") "")
  | none => none

/-- Result of `download_and_calculate_hashes` (mod_manager.py 24-44):
`(sha1, sha512, total_bytes)`, with `(none, none, 0)` on failure. -/
structure HashResult where
  sha1 : Option String
  sha512 : Option String
  size : Nat
deriving DecidableEq, Repr

/-- `download_and_calculate_hashes` (mod_manager.py lines 24-44).  The
GET itself is recorded as a transfer attempt by the caller. -/
def download_and_calculate_hashes (env : Env) (url : String) : HashResult :=
  match env.net url with
  | none => ⟨none, none, 0⟩
  | some c => ⟨some c.sha1, some c.sha512, c.size⟩

/-- Result of a download call: `(file_path, downloaded_flag)` plus the
resulting filesystem and the write/transfer attempts performed. -/
structure DlResult where
  path : Option String
  transferred : Bool
  fs : Fs
  writes : List String
  transfers : List String
deriving DecidableEq, Repr

/-- The GET-and-write part shared by `download_file` (mod_manager.py
lines 66-75) and `async_download_file` (lines 153-163): fetch the URL
and stream it to `filePath`; any raised error is caught by the caller
and reported as `(None, False)`. -/
def download_file_fetch (env : Env) (fs : Fs) (url filePath : String) : DlResult :=
  match env.net url with
  | none => ⟨none, false, fs, [], [url]⟩
  | some c =>
    if env.writeFails filePath then ⟨none, false, fs, [], [url]⟩
    else ⟨some filePath, true, fsInsert fs filePath c, [filePath], [url]⟩

/-- `download_file` (mod_manager.py lines 46-75): synchronous download.
Skips the transfer when a file already exists at the destination with
the expected size (or no expected size is given); returns
`(None, False)` on any caught failure. -/
def download_file (env : Env) (fs : Fs) (url directory : String)
    (expectedSize : Option Nat) (dryRun : Bool) : DlResult :=
  if dryRun then ⟨some (pathJoin directory (urlFilename url)), true, fs, [], []⟩
  else
    match fsFind fs (pathJoin directory (urlFilename url)) with
    | some c =>
      if expectedSize = none ∨ expectedSize = some c.size then
        ⟨some (pathJoin directory (urlFilename url)), false, fs, [], []⟩
      else download_file_fetch env fs url (pathJoin directory (urlFilename url))
    | none => download_file_fetch env fs url (pathJoin directory (urlFilename url))

/-- `async_download_file` (mod_manager.py lines 145-163): always
transfers (no existing-size short-circuit); failures are caught by the
wrapper. -/
def async_download_file (env : Env) (fs : Fs) (url directory : String) : DlResult :=
  download_file_fetch env fs url (pathJoin directory (urlFilename url))

/-- `download_file_wrapper` (mod_manager.py lines 165-177). -/
def download_file_wrapper (env : Env) (fs : Fs) (url directory : String)
    (expectedSize : Option Nat) (dryRun useAsync : Bool) : DlResult :=
  if useAsync ∧ ¬dryRun then async_download_file env fs url directory
  else download_file env fs url directory expectedSize dryRun

/-- `calculate_local_file_sha1` (mod_manager.py lines 77-89): `none`
when the file cannot be read (here: does not exist). -/
def calculate_local_file_sha1 (fs : Fs) (p : String) : Option String :=
  (fsFind fs p).map (fun c => c.sha1)

/-- `file_entry['downloads'][0].split('/')[4]` (mod_manager.py line
187): `none` models the caught `IndexError` (empty `downloads` or a URL
with too few path segments). -/
def projectIdOf (e : FileEntry) : Option String :=
  match e.downloads.head? with
  | none => none
  | some url => (pySplit url '/').get? 4

/-- Per-entry reconciliation outcome (spec section 4.1); identifies the
branch taken by `check_and_update_mod_versions` for the entry. -/
inductive Outcome where
  | malformedEntry
  | noCompatibleRelease
  | upToDate
  | updateNeeded
deriving DecidableEq, Repr

/-- State threaded through one reconciliation run. `entries` is the
output manifest file list; `report` has one outcome per processed
entry; `crashed` models the uncaught `IndexError` at mod_manager.py
line 196. -/
structure RecState where
  entries : List FileEntry
  db : List CacheRecord
  fs : Fs
  transfers : List String
  writes : List String
  updatesLog : List String
  report : List Outcome
  crashed : Bool
deriving DecidableEq, Repr

/-- Accumulator of the inner `for file_info in latest_version_info['files']`
loop (mod_manager.py lines 204-231). -/
structure UpdAcc where
  entry : FileEntry
  db : List CacheRecord
  fs : Fs
  transfers : List String
  writes : List String
  log : List String
deriving DecidableEq, Repr

/-- The inner update loop of `check_and_update_mod_versions`
(mod_manager.py lines 204-231): for every file flagged `primary`,
download and hash it, rewrite the manifest entry in place and upsert
the cache record; under `dry_run` only log and continue. -/
def updateLoop (env : Env) (pid modsDir loader vnum : String)
    (dryRun useAsync : Bool) : List VFile → UpdAcc → UpdAcc
  | [], acc => acc
  | fi :: rest, acc =>
    if fi.primary then
      if dryRun then updateLoop env pid modsDir loader vnum dryRun useAsync rest acc
      else
        let h := download_and_calculate_hashes env fi.url
        let dl := download_file_wrapper env acc.fs fi.url modsDir (some h.size)
          dryRun useAsync
        let relPath := get_relative_path dl.path "current"
        let e := acc.entry
        let e' : FileEntry :=
          { e with downloads := [fi.url], path := relPath,
                   hashes := some ⟨h.sha1, h.sha512⟩, fileSize := h.size }
        let newRec : CacheRecord :=
          ⟨pid, vnum, fi.url, h.size, h.sha1, h.sha512, loader⟩
        updateLoop env pid modsDir loader vnum dryRun useAsync rest
          ⟨e', upsertRec acc.db newRec, dl.fs,
           acc.transfers ++ [fi.url] ++ dl.transfers,
           acc.writes ++ dl.writes,
           acc.log ++ ["Updated mod " ++ fi.filename ++ " to version " ++ vnum]⟩
    else updateLoop env pid modsDir loader vnum dryRun useAsync rest acc

/-- The `UpdateNeeded` branch of `check_and_update_mod_versions`
(mod_manager.py lines 203-231): run the primary-file loop from the
current state and merge its results into the run state. -/
def processEntryUpdate (env : Env) (ml modsDir : String) (dryRun useAsync : Bool)
    (st : RecState) (e : FileEntry) (pid : String) (rel : Release) : RecState :=
  let acc := updateLoop env pid modsDir ml rel.version_number dryRun useAsync
    rel.files ⟨e, st.db, st.fs, [], [], []⟩
  { st with entries := st.entries ++ [acc.entry], db := acc.db, fs := acc.fs,
            transfers := st.transfers ++ acc.transfers,
            writes := st.writes ++ acc.writes,
            updatesLog := st.updatesLog ++ acc.log,
            report := st.report ++ [Outcome.updateNeeded] }

/-- Processing of one manifest entry by `check_and_update_mod_versions`
(mod_manager.py lines 185-231). -/
def processEntry (env : Env) (gv ml modsDir : String) (dryRun useAsync : Bool)
    (st : RecState) (e : FileEntry) : RecState :=
  match projectIdOf e with
  | none =>
    { st with entries := st.entries ++ [e],
              report := st.report ++ [Outcome.malformedEntry] }
  | some pid =>
    match env.cat pid gv ml with
    | none =>
      { st with entries := st.entries ++ [e],
                report := st.report ++ [Outcome.noCompatibleRelease] }
    | some rel =>
      let current := findRec st.db pid
      match rel.files.head? with
      | none => { st with entries := st.entries ++ [e], crashed := true }
      | some f0 =>
        let localFilePath := pathJoin modsDir f0.filename
        let hit : Bool :=
          match current with
          | some c =>
            match fsFind st.fs localFilePath with
            | some _ =>
              decide (calculate_local_file_sha1 st.fs localFilePath = c.sha1)
            | none => false
          | none => false
        if hit then
          { st with entries := st.entries ++ [e],
                    report := st.report ++ [Outcome.upToDate] }
        else
          let needs : Bool :=
            match current with
            | none => true
            | some c => decide (c.version_number ≠ rel.version_number)
          if needs then
            processEntryUpdate env ml modsDir dryRun useAsync st e pid rel
          else
            { st with entries := st.entries ++ [e],
                      report := st.report ++ [Outcome.upToDate] }

/-- The `for file_entry in json_data.get('files', [])` loop
(mod_manager.py line 185).  A crash (uncaught exception) stops the run,
leaving the remaining entries untouched. -/
def processEntries (env : Env) (gv ml modsDir : String) (dryRun useAsync : Bool) :
    List FileEntry → RecState → RecState
  | [], st => st
  | e :: rest, st =>
    let st' := processEntry env gv ml modsDir dryRun useAsync st e
    if st'.crashed then { st' with entries := st'.entries ++ rest }
    else processEntries env gv ml modsDir dryRun useAsync rest st'

/-- `check_and_update_mod_versions` (mod_manager.py lines 179-239):
process all entries, then append the update log file when updates
happened and the run is not a dry run (and did not crash; the uncaught
exception would have propagated before the log write). -/
def check_and_update_mod_versions (env : Env)
    (files : List FileEntry) (db : List CacheRecord) (fs : Fs)
    (logFilePath gv ml modsDir : String) (dryRun useAsync : Bool) : RecState :=
  let st := processEntries env gv ml modsDir dryRun useAsync files
    ⟨[], db, fs, [], [], [], [], false⟩
  if st.updatesLog ≠ [] ∧ ¬dryRun ∧ ¬st.crashed then
    if env.writeFails logFilePath then st
    else { st with writes := st.writes ++ [logFilePath] }
  else st

/-! ## JSON model

`src/main.py` and `src/mod_manager.py` load and persist the manifest
with Python's `json` module (`json.load` / `json.dump(..., indent=4)`).
The module is external to the repository, so the fragment it handles on
manifest files is modelled here: objects are ordered key/value lists
(Python dicts preserve insertion order), numbers are the non-negative
integers appearing in manifests, and strings are taken without escape
sequences (manifest strings are plain ASCII paths, URLs and digests). -/

/-- The opening brace character. -/
def braceL : Char := Char.ofNat 123

/-- The closing brace character. -/
def braceR : Char := Char.ofNat 125

/-- JSON values of the manifest fragment. -/
inductive JVal where
  | null
  | bool (b : Bool)
  | num (n : Nat)
  | str (s : List Char)
  | arr (elems : List JVal)
  | obj (mems : List (List Char × JVal))

/-- Decimal digit character for `n < 10` (clamped at 9 above). -/
def digitChar : Nat → Char
  | 0 => '0' | 1 => '1' | 2 => '2' | 3 => '3' | 4 => '4'
  | 5 => '5' | 6 => '6' | 7 => '7' | 8 => '8' | _ => '9'

/-- Decimal digits with explicit fuel (structural, so that the kernel
can evaluate it); `fuel ≥ n` always suffices. -/
def natDigitsFuel : Nat → Nat → List Char
  | 0, n => [digitChar (n % 10)]
  | fuel + 1, n =>
    if n < 10 then [digitChar n]
    else natDigitsFuel fuel (n / 10) ++ [digitChar (n % 10)]

/-- Decimal digits of a natural number, most significant first. -/
def natDigits (n : Nat) : List Char := natDigitsFuel n n

/-- `json.dump(..., indent=4)` indentation at nesting depth `d`. -/
def indentChars (d : Nat) : List Char := List.replicate (4 * d) ' '

mutual

/-- Serialization of a value exactly as Python's
`json.dump(..., indent=4)` writes it (separators `(',', ': ')`). -/
def emitVal : JVal → Nat → List Char
  | .null, _ => ['n', 'u', 'l', 'l']
  | .bool true, _ => ['t', 'r', 'u', 'e']
  | .bool false, _ => ['f', 'a', 'l', 's', 'e']
  | .num n, _ => natDigits n
  | .str s, _ => '"' :: (s ++ ['"'])
  | .arr [], _ => ['[', ']']
  | .arr (x :: xs), d =>
    '[' :: '\n' :: (emitElems (x :: xs) (d + 1) ++ '\n' :: (indentChars d ++ [']']))
  | .obj [], _ => [braceL, braceR]
  | .obj (m :: ms), d =>
    braceL :: '\n' :: (emitMems (m :: ms) (d + 1) ++ '\n' :: (indentChars d ++ [braceR]))

/-- Array elements, one per line at depth `d`, separated by `,\n`. -/
def emitElems : List JVal → Nat → List Char
  | [], _ => []
  | [x], d => indentChars d ++ emitVal x d
  | x :: y :: ys, d =>
    indentChars d ++ (emitVal x d ++ ',' :: '\n' :: emitElems (y :: ys) d)

/-- Object members, `"key": value`, one per line at depth `d`. -/
def emitMems : List (List Char × JVal) → Nat → List Char
  | [], _ => []
  | [(k, v)], d => indentChars d ++ ('"' :: (k ++ '"' :: ':' :: ' ' :: emitVal v d))
  | (k, v) :: m :: ms, d =>
    indentChars d ++
      ('"' :: (k ++ '"' :: ':' :: ' ' :: (emitVal v d ++ ',' :: '\n' :: emitMems (m :: ms) d)))

end

/-- JSON whitespace. -/
def isWsC (c : Char) : Bool := c == ' ' || c == '\n' || c == '\t' || c == '\r'

/-- Decimal digit test. -/
def isDigitC (c : Char) : Bool :=
  c == '0' || c == '1' || c == '2' || c == '3' || c == '4' ||
  c == '5' || c == '6' || c == '7' || c == '8' || c == '9'

/-- Skip leading JSON whitespace. -/
def skipWs : List Char → List Char
  | [] => []
  | c :: r => if isWsC c then skipWs r else c :: r

/-- Value of a digit character. -/
def digitValC (c : Char) : Nat := c.toNat - 48

/-- Number denoted by a digit string (most significant first). -/
def natOfDigits (ds : List Char) : Nat :=
  ds.foldl (fun a c => 10 * a + digitValC c) 0

/-- String body parser: everything up to the closing quote (the
manifest fragment has no escape sequences). -/
def parseStr : List Char → Option (List Char × List Char)
  | [] => none
  | c :: r =>
    if c = '"' then some ([], r)
    else if c = '\\' then none
    else
      match parseStr r with
      | some (cs, rest) => some (c :: cs, rest)
      | none => none

mutual

/-- Fueled JSON value parser modelling `json.load` on the manifest
fragment. -/
def parseVal : Nat → List Char → Option (JVal × List Char)
  | 0, _ => none
  | fuel + 1, s =>
    match skipWs s with
    | [] => none
    | c :: r =>
      if c = braceL then
        match skipWs r with
        | [] => none
        | c2 :: r2 =>
          if c2 = braceR then some (.obj [], r2)
          else
            match parseMems fuel (c2 :: r2) with
            | some (ms, rest) => some (.obj ms, rest)
            | none => none
      else if c = '[' then
        match skipWs r with
        | [] => none
        | c2 :: r2 =>
          if c2 = ']' then some (.arr [], r2)
          else
            match parseElems fuel (c2 :: r2) with
            | some (xs, rest) => some (.arr xs, rest)
            | none => none
      else if c = '"' then
        match parseStr r with
        | some (cs, rest) => some (.str cs, rest)
        | none => none
      else if isDigitC c then
        some (.num (natOfDigits ((c :: r).takeWhile isDigitC)),
              (c :: r).dropWhile isDigitC)
      else if (c :: r).take 4 = ['t', 'r', 'u', 'e'] then
        some (.bool true, (c :: r).drop 4)
      else if (c :: r).take 5 = ['f', 'a', 'l', 's', 'e'] then
        some (.bool false, (c :: r).drop 5)
      else if (c :: r).take 4 = ['n', 'u', 'l', 'l'] then
        some (.null, (c :: r).drop 4)
      else none

/-- Array tail parser: a value, then `,` and more elements or `]`. -/
def parseElems : Nat → List Char → Option (List JVal × List Char)
  | 0, _ => none
  | fuel + 1, s =>
    match parseVal fuel s with
    | none => none
    | some (v, r) =>
      match skipWs r with
      | c :: r2 =>
        if c = ',' then
          match parseElems fuel r2 with
          | some (vs, rest) => some (v :: vs, rest)
          | none => none
        else if c = ']' then some ([v], r2)
        else none
      | [] => none

/-- Object member parser: `"key": value`, then `,` and more members or
the closing brace. -/
def parseMems : Nat → List Char → Option (List (List Char × JVal) × List Char)
  | 0, _ => none
  | fuel + 1, s =>
    match skipWs s with
    | [] => none
    | c :: r =>
      if c = '"' then
        match parseStr r with
        | none => none
        | some (k, r1) =>
          match skipWs r1 with
          | c2 :: r2 =>
            if c2 = ':' then
              match parseVal fuel r2 with
              | none => none
              | some (v, r3) =>
                match skipWs r3 with
                | c4 :: r4 =>
                  if c4 = ',' then
                    match parseMems fuel r4 with
                    | some (ms, rest) => some ((k, v) :: ms, rest)
                    | none => none
                  else if c4 = braceR then some ([(k, v)], r4) else none
                | [] => none
            else none
          | [] => none
      else none

end

mutual

/-- Well-formedness for the manifest fragment: strings are free of `"`
and `\` (no escape sequences needed). -/
def wfVal : JVal → Bool
  | JVal.null => true
  | JVal.bool _ => true
  | JVal.num _ => true
  | JVal.str s => s.all (fun c => !(c == '"') && !(c == '\\'))
  | JVal.arr xs => wfElems xs
  | JVal.obj ms => wfMems ms

/-- Well-formedness of array elements. -/
def wfElems : List JVal → Bool
  | [] => true
  | x :: xs => wfVal x && wfElems xs

/-- Well-formedness of object members. -/
def wfMems : List (List Char × JVal) → Bool
  | [] => true
  | (k, v) :: ms =>
    k.all (fun c => !(c == '"') && !(c == '\\')) && wfVal v && wfMems ms

end

mutual

/-- Node count of a JSON value, used as parser fuel bound. -/
def jsize : JVal → Nat
  | JVal.null => 1
  | JVal.bool _ => 1
  | JVal.num _ => 1
  | JVal.str _ => 1
  | JVal.arr xs => 1 + jsizeL xs
  | JVal.obj ms => 1 + jsizeM ms

/-- Node count of array elements. -/
def jsizeL : List JVal → Nat
  | [] => 0
  | x :: xs => 1 + jsize x + jsizeL xs

/-- Node count of object members. -/
def jsizeM : List (List Char × JVal) → Nat
  | [] => 0
  | (_, v) :: ms => 1 + jsize v + jsizeM ms

end

/-- The head of `s`, if any, does not satisfy `p`. -/
def headNot (p : Char → Bool) (s : List Char) : Prop :=
  ∀ c, s.head? = some c → p c = false

/-- `json.load` on a whole document: one value, then only trailing
whitespace. -/
def json_loads (s : String) : Option JVal :=
  match parseVal (s.length + 1) s.toList with
  | some (j, rest) => if skipWs rest = [] then some j else none
  | none => none

/-- `json.dump(..., indent=4)` on a whole document. -/
def json_dumps (j : JVal) : String := String.mk (emitVal j 0)

/-- `load_modpack_json` followed by the exit-time persist in
src/main.py (lines 27-53 and 150-155), restricted to the case where a
parseable manifest file exists: parse the bytes, then re-serialize
them with `json.dump(..., indent=4)`. -/
def load_then_persist (s : String) : Option String := (json_loads s).map json_dumps

/-! ## Packaging workflow (`update_pack`, `build_modpack`) -/

/-- The `dependencies` dictionary of the manifest, with the keys the
code reads (src/mod_manager.py lines 124-143). -/
structure Deps where
  minecraft : Option String
  forge : Option String
  fabric : Option String
  quilt : Option String
deriving DecidableEq, Repr

/-- `get_game_version_and_mod_loader` (mod_manager.py lines 124-143):
`(game_version, mod_loader, mod_loader_version)`, all `none` when the
game version or every loader key is missing. -/
def get_game_version_and_mod_loader (d : Deps) :
    Option String × Option String × Option String :=
  let gv := d.minecraft
  let ml : Option String × Option String :=
    match d.forge with
    | some v => (some "forge", some v)
    | none =>
      match d.fabric with
      | some v => (some "fabric", some v)
      | none =>
        match d.quilt with
        | some v => (some "quilt", some v)
        | none => (none, none)
  match gv, ml.1 with
  | some g, some l => (some g, some l, ml.2)
  | _, _ => (none, none, none)

/-- In-memory manifest (`json_data`), with the pack-level fields the
workflow reads and writes. -/
structure Manifest where
  versionId : String
  summary : String
  deps : Deps
  files : List FileEntry
deriving DecidableEq, Repr

/-- JSON of an optional string (`None` → `null`). -/
def optStrJson : Option String → JVal
  | none => JVal.null
  | some s => JVal.str s.toList

/-- JSON of one manifest file entry as the program persists it. -/
def entryJson (e : FileEntry) : JVal :=
  JVal.obj
    ([("downloads".toList, JVal.arr (e.downloads.map (fun u => JVal.str u.toList))),
      ("path".toList, optStrJson e.path)] ++
     (match e.hashes with
      | none => []
      | some h =>
        [("hashes".toList,
          JVal.obj [("sha1".toList, optStrJson h.sha1),
                    ("sha512".toList, optStrJson h.sha512)])]) ++
     [("fileSize".toList, JVal.num e.fileSize),
      ("env".toList,
       JVal.obj [("server".toList, JVal.str e.envServer.toList),
                 ("client".toList, JVal.str e.envClient.toList)])])

/-- JSON of the dependencies dictionary. -/
def depsJson (d : Deps) : JVal :=
  JVal.obj
    ((match d.minecraft with
      | some v => [("minecraft".toList, JVal.str v.toList)]
      | none => []) ++
     (match d.forge with
      | some v => [("forge".toList, JVal.str v.toList)]
      | none => []) ++
     (match d.fabric with
      | some v => [("fabric".toList, JVal.str v.toList)]
      | none => []) ++
     (match d.quilt with
      | some v => [("quilt".toList, JVal.str v.toList)]
      | none => []))

/-- JSON of the whole manifest as `json.dump` receives it. -/
def manifestJson (m : Manifest) : JVal :=
  JVal.obj
    [("versionId".toList, JVal.str m.versionId.toList),
     ("summary".toList, JVal.str m.summary.toList),
     ("dependencies".toList, depsJson m.deps),
     ("files".toList, JVal.arr (m.files.map entryJson))]

/-- The bytes `json.dump(json_data, f, indent=4)` writes for the
manifest. -/
def index_content (m : Manifest) : String := json_dumps (manifestJson m)

/-- Micro-steps of a file write, to express visibility of intermediate
states at the canonical manifest path. -/
inductive WriteStep where
  | truncate
  | writeAll (s : String)
deriving DecidableEq, Repr

/-- Effect of a sequence of write steps on the file at one path
(`none` = no file). -/
def applySteps (file : Option String) : List WriteStep → Option String
  | [] => file
  | WriteStep.truncate :: r => applySteps (some "") r
  | WriteStep.writeAll s :: r => applySteps (some ((file.getD "") ++ s)) r

/-- The persist performed by `update_pack`/`build_modpack`
(mod_manager.py lines 383-386 and 428-431) and by the exit save
(main.py lines 150-153): `open(index_path, 'w')` truncates the
canonical file in place, then `json.dump` writes the serialized
manifest into it. -/
def persistSteps (content : String) : List WriteStep :=
  [WriteStep.truncate, WriteStep.writeAll content]

/-- Write-temp-then-rename atomicity: after every prefix of the steps,
the canonical path holds either the old file or the complete new
content. -/
def atomicPersist (steps : List WriteStep) (oldFile : Option String)
    (newContent : String) : Prop :=
  ∀ n : Nat, applySteps oldFile (steps.take n) = oldFile ∨
             applySteps oldFile (steps.take n) = some newContent

/-- State owned by the packaging workflow for one run. `indexFile` is
the content at the canonical manifest path; `backups`, `archives`,
`writes` and `transfers` record the run's effects. -/
structure PackState where
  manifest : Manifest
  db : List CacheRecord
  fs : Fs
  indexFile : Option String
  backups : List String
  archives : List String
  transfers : List String
  writes : List String
  crashed : Bool
deriving DecidableEq, Repr

/-- `backup_current_version` (mod_manager.py lines 299-312): no current
directory → nothing to back up; a failing `shutil.copytree` is caught,
logged, and the function returns normally. -/
def backup_current_version (wenv : WorkflowEnv) (st : PackState) : PackState :=
  if ¬wenv.currentDirExists then st
  else if wenv.backupOk then { st with backups := st.backups ++ [wenv.backupName] }
  else st

/-- The canonical manifest path `os.path.join(current_dir, "modrinth.index.json")`. -/
def indexPath (currentDir : String) : String :=
  pathJoin currentDir "modrinth.index.json"

/-- `update_pack` (mod_manager.py lines 336-392).  The interactive
prompts are parameters (`newVersion`, `newSummary`, `dryRun`,
`proceedOverrides`); a crash inside the reconciler propagates, so
nothing after it runs. -/
def update_pack (wenv : WorkflowEnv) (st : PackState) (newVersion newSummary : String)
    (dryRun proceedOverrides useAsync : Bool)
    (currentDir modsDir logFilePath : String) : PackState :=
  if newVersion = st.manifest.versionId then st
  else if wenv.overridesNonEmpty ∧ ¬proceedOverrides then st
  else
    let st1 := if dryRun then st else backup_current_version wenv st
    match get_game_version_and_mod_loader st1.manifest.deps with
    | (some gv, some ml, _) =>
      let r := check_and_update_mod_versions wenv.env st1.manifest.files st1.db st1.fs
        logFilePath gv ml modsDir dryRun useAsync
      let st2 : PackState :=
        { st1 with manifest := { st1.manifest with files := r.entries },
                   db := r.db, fs := r.fs,
                   transfers := st1.transfers ++ r.transfers,
                   writes := st1.writes ++ r.writes,
                   crashed := r.crashed }
      if r.crashed then st2
      else if dryRun then st2
      else
        let m' := { st2.manifest with versionId := newVersion, summary := newSummary }
        let content := index_content m'
        let st3 :=
          if wenv.env.writeFails (indexPath currentDir) then { st2 with manifest := m' }
          else
            { st2 with manifest := m',
                       indexFile := applySteps st2.indexFile (persistSteps content),
                       writes := st2.writes ++ [indexPath currentDir] }
        { st3 with archives := st3.archives ++ [newVersion ++ ".mrpack"] }
    | _ => st1

/-- `build_modpack` (mod_manager.py lines 394-437): same pre-flight and
backup as `update_pack`, no reconciliation; the restamp, persist and
archive run unconditionally (lines 424-435), `dry_run` only gates the
backup (line 421) and a log message (line 436). -/
def build_modpack (wenv : WorkflowEnv) (st : PackState) (newVersion newSummary : String)
    (dryRun proceedOverrides : Bool) (currentDir : String) : PackState :=
  if newVersion = st.manifest.versionId then st
  else if wenv.overridesNonEmpty ∧ ¬proceedOverrides then st
  else
    let st1 := if dryRun then st else backup_current_version wenv st
    let m' := { st1.manifest with versionId := newVersion, summary := newSummary }
    let content := index_content m'
    let st2 :=
      if wenv.env.writeFails (indexPath currentDir) then { st1 with manifest := m' }
      else
        { st1 with manifest := m',
                   indexFile := applySteps st1.indexFile (persistSteps content),
                   writes := st1.writes ++ [indexPath currentDir] }
    { st2 with archives := st2.archives ++ [newVersion ++ ".mrpack"] }

/-! ## Concrete run fixtures

Small concrete environments, manifests and states used to evaluate the
embedded code on specific inputs.  URLs follow the layout the code
relies on (`url.split('/')[4]` is the project id). -/

/-- C1 fixture: URL of the latest release's primary file. -/
def c1Url : String := "h://c/d/P1/v2/b.jar"

/-- C1 fixture: latest release, new version `2.0`, new filename. -/
def c1Rel : Release := ⟨"2.0", [⟨"b.jar", c1Url, true⟩]⟩

/-- C1 fixture environment. -/
def c1Env : Env :=
  ⟨fun u => if u = c1Url then some ⟨"HN", "SN", 20⟩ else none,
   fun _ => false,
   fun pid _ _ => if pid = "P1" then some c1Rel else none⟩

/-- C1 fixture: cached record for `P1`, version `1.0`, digest `H1`. -/
def c1Cache : CacheRecord :=
  ⟨"P1", "1.0", "h://c/d/P1/v1/a.jar", 10, some "H1", some "S1", "fabric"⟩

/-- C1 fixture: manifest entry whose local path is `mods/a.jar`. -/
def c1Entry : FileEntry :=
  ⟨["h://c/d/P1/v1/a.jar"], some "mods/a.jar", some ⟨some "H1", some "S1"⟩,
   10, "required", "required"⟩

/-- C1 fixture: run state, with the file on disk at the entry's local
path matching the cached digest. -/
def c1St : RecState :=
  ⟨[], [c1Cache], [("current/mods/a.jar", ⟨"H1", "S1", 10⟩)], [], [], [], [], false⟩

/-- C1 fixture: the reconciliation of the entry. -/
def c1Result : RecState :=
  processEntry c1Env "1.20.1" "fabric" "current/mods" false false c1St c1Entry

/-- C1 witness fixture: release whose first file keeps the name
`a.jar`, so the digest check hits the on-disk file. -/
def c1wRel : Release := ⟨"2.0", [⟨"a.jar", "h://c/d/P1/v2/a.jar", true⟩]⟩

/-- C1 witness fixture environment (no network needed). -/
def c1wEnv : Env :=
  ⟨fun _ => none, fun _ => false,
   fun pid _ _ => if pid = "P1" then some c1wRel else none⟩

/-- C2 fixture: URL of the `1.1` release's primary file. -/
def c2Url : String := "h://c/d/P1/v11/m.jar"

/-- C2 fixture: latest release with version number `1.1`. -/
def c2Rel : Release := ⟨"1.1", [⟨"m.jar", c2Url, true⟩]⟩

/-- C2 fixture environment. -/
def c2Env : Env :=
  ⟨fun u => if u = c2Url then some ⟨"H2", "S2", 7⟩ else none,
   fun _ => false,
   fun pid _ _ => if pid = "P1" then some c2Rel else none⟩

/-- C2 fixture: cached record with version number `1.0`. -/
def c2Cache : CacheRecord := ⟨"P1", "1.0", "old", 5, some "HX", some "SX", "fabric"⟩

/-- C2 fixture: manifest entry for project `P1`. -/
def c2Entry : FileEntry :=
  ⟨["h://c/d/P1/v10/o.jar"], some "mods/o.jar", some ⟨some "HX", some "SX"⟩,
   5, "required", "optional"⟩

/-- C2 fixture: run state, no local file present. -/
def c2St : RecState := ⟨[], [c2Cache], [], [], [], [], [], false⟩

/-- C2 fixture: the reconciliation of the entry. -/
def c2Result : RecState :=
  processEntry c2Env "1.20.1" "fabric" "current/mods" false false c2St c2Entry

/-- C3 fixture: URL of the release's only (non-primary) file. -/
def c3Url : String := "h://c/d/P3/v1/n.jar"

/-- C3 fixture: release whose only file is not flagged primary. -/
def c3Rel : Release := ⟨"1.0", [⟨"n.jar", c3Url, false⟩]⟩

/-- C3 fixture environment. -/
def c3Env : Env :=
  ⟨fun u => if u = c3Url then some ⟨"H3", "S3", 9⟩ else none,
   fun _ => false,
   fun pid _ _ => if pid = "P3" then some c3Rel else none⟩

/-- C3 fixture: manifest entry for project `P3`. -/
def c3Entry : FileEntry :=
  ⟨["h://c/d/P3/v0/o.jar"], some "mods/o.jar", none, 3, "required", "required"⟩

/-- C3 fixture: run state with no cache record (so `UpdateNeeded`). -/
def c3St : RecState := ⟨[], [], [], [], [], [], [], false⟩

/-- C3 fixture: the reconciliation of the entry. -/
def c3Result : RecState :=
  processEntry c3Env "1.20.1" "fabric" "current/mods" false false c3St c3Entry

/-- C3 witness fixture: URL of a non-primary file. -/
def c3wUrlA : String := "h://c/d/P3/v1/x.jar"

/-- C3 witness fixture: URL of the primary file. -/
def c3wUrlB : String := "h://c/d/P3/v1/y.jar"

/-- C3 witness fixture: release with one non-primary and one primary
file. -/
def c3wRel : Release :=
  ⟨"1.0", [⟨"x.jar", c3wUrlA, false⟩, ⟨"y.jar", c3wUrlB, true⟩]⟩

/-- C3 witness fixture environment. -/
def c3wEnv : Env :=
  ⟨fun u => if u = c3wUrlB then some ⟨"HY", "SY", 4⟩ else none,
   fun _ => false,
   fun pid _ _ => if pid = "P3" then some c3wRel else none⟩

/-- C3 witness fixture: the reconciliation of the entry. -/
def c3wResult : RecState :=
  processEntry c3wEnv "1.20.1" "fabric" "current/mods" false false c3St c3Entry

/-- C4 fixture: dependencies (minecraft + fabric). -/
def c4Deps : Deps := ⟨some "1.20.1", none, some "0.15.11", none⟩

/-- C4 fixture: manifest before the build run. -/
def c4Manifest : Manifest := ⟨"1.0.0", "old summary", c4Deps, []⟩

/-- C4 fixture environment. -/
def c4Env : WorkflowEnv :=
  ⟨⟨fun _ => none, fun _ => false, fun _ _ _ => none⟩, true, true, "backups/b4", false⟩

/-- C4 fixture: pack state before the build run. -/
def c4St : PackState := ⟨c4Manifest, [], [], some "OLD", [], [], [], [], false⟩

/-- C4 fixture: `build_modpack` with `dryRun = true`. -/
def c4Result : PackState := build_modpack c4Env c4St "2.0.0" "new summary" true true "current"

/-- C4 witness fixture: release that would require an update. -/
def c4wRel : Release := ⟨"1.1", [⟨"m.jar", "h://c/d/P1/v11/m.jar", true⟩]⟩

/-- C4 witness fixture environment. -/
def c4wEnv : WorkflowEnv :=
  ⟨⟨fun _ => some ⟨"H", "S", 7⟩, fun _ => false,
    fun pid _ _ => if pid = "P1" then some c4wRel else none⟩,
   true, true, "b", false⟩

/-- C4 witness fixture: entry with no cache record, so the decision is
`UpdateNeeded`. -/
def c4wEntry : FileEntry :=
  ⟨["h://c/d/P1/v10/o.jar"], some "mods/o.jar", none, 5, "required", "required"⟩

/-- C4 witness fixture: manifest with one entry. -/
def c4wManifest : Manifest := ⟨"1.0.0", "old", c4Deps, [c4wEntry]⟩

/-- C4 witness fixture: pack state. -/
def c4wSt : PackState := ⟨c4wManifest, [], [], some "OLD", [], [], [], [], false⟩

/-- C4 witness fixture: `update_pack` with `dryRun = true`. -/
def c4wResult : PackState :=
  update_pack c4wEnv c4wSt "2.0.0" "s" true true true "current" "current/mods" "logs/l.txt"

/-- C5 fixture: URL of the update's primary file. -/
def c5Url : String := "h://c/d/P1/v11/m.jar"

/-- C5 fixture: latest release. -/
def c5Rel : Release := ⟨"1.1", [⟨"m.jar", c5Url, true⟩]⟩

/-- C5 fixture environment: `backupOk = false`, the working-tree copy
cannot complete. -/
def c5Env : WorkflowEnv :=
  ⟨⟨fun u => if u = c5Url then some ⟨"H5", "S5", 7⟩ else none,
    fun _ => false,
    fun pid _ _ => if pid = "P1" then some c5Rel else none⟩,
   true, false, "backups/b5", false⟩

/-- C5 fixture: entry needing an update. -/
def c5Entry : FileEntry :=
  ⟨["h://c/d/P1/v10/o.jar"], some "mods/o.jar", none, 5, "required", "required"⟩

/-- C5 fixture: dependencies. -/
def c5Deps : Deps := ⟨some "1.20.1", none, some "0.15.11", none⟩

/-- C5 fixture: manifest. -/
def c5Manifest : Manifest := ⟨"1.0", "s", c5Deps, [c5Entry]⟩

/-- C5 fixture: pack state before the run. -/
def c5St : PackState := ⟨c5Manifest, [], [], some "OLD", [], [], [], [], false⟩

/-- C5 fixture: non-dry `update_pack` run with the failing backup. -/
def c5Result : PackState :=
  update_pack c5Env c5St "2.0" "sum" false true false "current" "current/mods" "logs/l5.txt"

/-- C6 fixture: dependencies. -/
def c6Deps : Deps := ⟨some "1.20.1", none, some "0.15.11", none⟩

/-- C6 fixture: a manifest to persist. -/
def c6Manifest : Manifest := ⟨"1.0", "s", c6Deps, []⟩

/-- C7 fixture environment (never consulted for a malformed entry). -/
def c7Env : Env :=
  ⟨fun _ => none, fun _ => false, fun _ _ _ => none⟩

/-- C7 fixture: entry whose only download URL has too few path
segments to carry a project id. -/
def c7Entry : FileEntry := ⟨["nopath"], some "mods/z.jar", none, 1, "required", "required"⟩

/-- C7 fixture: initial run state. -/
def c7St : RecState := ⟨[], [], [], [], [], [], [], false⟩

/-- C8 fixture: URL of project `P`'s `2.0` primary file (basename
`a.jar`). -/
def c8UrlP : String := "h://c/d/P/v2/a.jar"

/-- C8 fixture: latest release of project `P`. -/
def c8RelP : Release := ⟨"2.0", [⟨"a.jar", c8UrlP, true⟩]⟩

/-- C8 fixture: URL of project `Q`'s `5.0` primary file (same basename
`a.jar`). -/
def c8UrlQ : String := "h://c/d/Q/v5/a.jar"

/-- C8 fixture: latest release of project `Q`. -/
def c8RelQ : Release := ⟨"5.0", [⟨"a.jar", c8UrlQ, true⟩]⟩

/-- C8 fixture environment. -/
def c8Env : Env :=
  ⟨fun u => if u = c8UrlP then some ⟨"HP", "SP", 21⟩
            else if u = c8UrlQ then some ⟨"HQ", "SQ", 20⟩ else none,
   fun _ => false,
   fun pid _ _ =>
     if pid = "P" then some c8RelP else if pid = "Q" then some c8RelQ else none⟩

/-- C8 fixture: entry for project `P` (digest currently matching the
cache). -/
def c8EntryE : FileEntry :=
  ⟨["h://c/d/P/v1/a.jar"], some "mods/a.jar", some ⟨some "HO", some "SO"⟩,
   10, "required", "required"⟩

/-- C8 fixture: entry for project `Q` (no cache record yet). -/
def c8EntryF : FileEntry :=
  ⟨["h://c/d/Q/v4/b.jar"], some "mods/b.jar", none, 3, "required", "required"⟩

/-- C8 fixture: cache holding only project `P` at version `1.0`. -/
def c8Db : List CacheRecord := [⟨"P", "1.0", "u", 10, some "HO", some "SO", "fabric"⟩]

/-- C8 fixture: on-disk `a.jar` matching `P`'s cached digest. -/
def c8Fs : Fs := [("current/mods/a.jar", ⟨"HO", "SO", 10⟩)]

/-- C8 fixture: first reconciliation run. -/
def c8Run1 : RecState :=
  check_and_update_mod_versions c8Env [c8EntryE, c8EntryF] c8Db c8Fs
    "logs/l1.txt" "1.20.1" "fabric" "current/mods" false false

/-- C8 fixture: second reconciliation run, same catalog and network. -/
def c8Run2 : RecState :=
  check_and_update_mod_versions c8Env c8Run1.entries c8Run1.db c8Run1.fs
    "logs/l2.txt" "1.20.1" "fabric" "current/mods" false false

/-- C8 witness fixture: primary-file URL whose fifth segment is the
project id `P1`. -/
def c8wUrl : String := "h://c/d/P1/v11/m.jar"

/-- C8 witness fixture: latest release of `P1`. -/
def c8wRel : Release := ⟨"1.1", [⟨"m.jar", c8wUrl, true⟩]⟩

/-- C8 witness fixture environment. -/
def c8wEnv : Env :=
  ⟨fun u => if u = c8wUrl then some ⟨"HW", "SW", 7⟩ else none,
   fun _ => false,
   fun pid _ _ => if pid = "P1" then some c8wRel else none⟩

/-- C8 witness fixture: single entry, no cache record. -/
def c8wEntry : FileEntry :=
  ⟨["h://c/d/P1/v10/o.jar"], some "mods/o.jar", none, 5, "required", "required"⟩

/-- C8 witness fixture: first run. -/
def c8wRun1 : RecState :=
  check_and_update_mod_versions c8wEnv [c8wEntry] [] []
    "logs/w1.txt" "1.20.1" "fabric" "current/mods" false false

/-- C8 witness fixture: second run. -/
def c8wRun2 : RecState :=
  check_and_update_mod_versions c8wEnv c8wRun1.entries c8wRun1.db c8wRun1.fs
    "logs/w2.txt" "1.20.1" "fabric" "current/mods" false false

/-- C9 fixture: a compact-form manifest file. -/
def c9Compact : String := "\x7b\"files\": []\x7d"

/-- C9 fixture: the canonical (`indent=4`) serialization of the same
document. -/
def c9Canonical : String := "\x7b\n    \"files\": []\n\x7d"

/-- C9 witness fixture: a small manifest-shaped document. -/
def c9wJson : JVal :=
  JVal.obj [("versionId".toList, JVal.str "1.0.0".toList),
            ("files".toList, JVal.arr [JVal.num 3, JVal.null, JVal.bool true])]

/-- C10 fixture environment: every transfer fails. -/
def c10Env : Env :=
  ⟨fun _ => none, fun _ => false, fun _ _ _ => none⟩

/-- C10 fixture: a file already present at the destination with size 5. -/
def c10Fs : Fs := [("d/a.jar", ⟨"h", "s", 5⟩)]

/-! ## Theorems -/

theorem empty_append_str (s : String) : "" ++ s = s := by
  cases s
  rfl

theorem applySteps_persist (old : Option String) (content : String) :
    applySteps old (persistSteps content) = some content := by
  simp [applySteps, persistSteps, empty_append_str]

/-- **C7.** An entry whose canonical source URL yields no project id is
recorded as `MalformedEntry`, nothing else in the state changes, and
the run continues with the remaining entries (no abort). -/
theorem malformed_entry_skipped_run_continues
    (env : Env) (gv ml modsDir : String) (dryRun useAsync : Bool)
    (st : RecState) (e : FileEntry) (rest : List FileEntry)
    (hpid : projectIdOf e = none) (hc : st.crashed = false) :
    processEntry env gv ml modsDir dryRun useAsync st e =
      { st with entries := st.entries ++ [e],
                report := st.report ++ [Outcome.malformedEntry] } ∧
    processEntries env gv ml modsDir dryRun useAsync (e :: rest) st =
      processEntries env gv ml modsDir dryRun useAsync rest
        { st with entries := st.entries ++ [e],
                  report := st.report ++ [Outcome.malformedEntry] } := by
  have h1 : processEntry env gv ml modsDir dryRun useAsync st e =
      { st with entries := st.entries ++ [e],
                report := st.report ++ [Outcome.malformedEntry] } := by
    simp only [processEntry, hpid]
  refine ⟨h1, ?_⟩
  simp only [processEntries, h1, hc]
  simp

/-- Witness for C7 at a concrete malformed entry. -/
theorem malformed_entry_skipped_run_continues_witness :
    projectIdOf c7Entry = none ∧ c7St.crashed = false ∧
    processEntry c7Env "1.20.1" "fabric" "current/mods" false true c7St c7Entry =
      { c7St with entries := [c7Entry], report := [Outcome.malformedEntry] } :=
  ⟨rfl, rfl,
   (malformed_entry_skipped_run_continues c7Env "1.20.1" "fabric" "current/mods"
     false true c7St c7Entry [] rfl rfl).1⟩

/-- **C10.** The synchronous fetch is total and reports errors as
values: in dry-run mode it only simulates; when a file already exists
at the destination with the expected size (or no expected size is
given) it returns that path with `transferred = false` and performs no
write; and on any transfer failure (network error / non-success
status, modelled as `net url = none`, or a filesystem error, modelled
by `writeFails`) it returns `(none, false)` and leaves the filesystem
unchanged. -/
theorem download_file_total_errors_as_values
    (env : Env) (fs : Fs) (url directory : String) (expectedSize : Option Nat) :
    (download_file env fs url directory expectedSize true =
      ⟨some (pathJoin directory (urlFilename url)), true, fs, [], []⟩) ∧
    (∀ c, fsFind fs (pathJoin directory (urlFilename url)) = some c →
      (expectedSize = none ∨ expectedSize = some c.size) →
      download_file env fs url directory expectedSize false =
        ⟨some (pathJoin directory (urlFilename url)), false, fs, [], []⟩) ∧
    ((fsFind fs (pathJoin directory (urlFilename url)) = none ∨
      ∃ c, fsFind fs (pathJoin directory (urlFilename url)) = some c ∧
        expectedSize ≠ none ∧ expectedSize ≠ some c.size) →
      (env.net url = none ∨ env.writeFails (pathJoin directory (urlFilename url)) = true) →
      download_file env fs url directory expectedSize false =
        ⟨none, false, fs, [], [url]⟩) := by
  have hfetch : (env.net url = none ∨
      env.writeFails (pathJoin directory (urlFilename url)) = true) →
      download_file_fetch env fs url (pathJoin directory (urlFilename url)) =
        ⟨none, false, fs, [], [url]⟩ := by
    intro h
    unfold download_file_fetch
    rcases h with h | h
    · rw [h]
    · cases hn : env.net url with
      | none => rfl
      | some c => simp [h]
  refine ⟨by simp [download_file], ?_, ?_⟩
  · intro c hc hsz
    simp only [download_file, Bool.false_eq_true, if_false, hc, if_pos hsz]
  · intro hmiss hfail
    rcases hmiss with hnone | ⟨c, hc, hsome, hsize⟩
    · simp only [download_file, Bool.false_eq_true, if_false, hnone]
      exact hfetch hfail
    · have hcond : ¬(expectedSize = none ∨ expectedSize = some c.size) := by
        rintro (h | h)
        · exact hsome h
        · exact hsize h
      simp only [download_file, Bool.false_eq_true, if_false, hc, if_neg hcond]
      exact hfetch hfail

/-- Witness for C10: the exists-with-expected-size case performs no
write, and a failing transfer returns `(none, false)`. -/
theorem download_file_total_errors_as_values_witness :
    (fsFind c10Fs (pathJoin "d" (urlFilename "h://x/a.jar")) =
        some ⟨"h", "s", 5⟩ ∧
      download_file c10Env c10Fs "h://x/a.jar" "d" (some 5) false =
        ⟨some (pathJoin "d" (urlFilename "h://x/a.jar")), false, c10Fs, [], []⟩) ∧
    (c10Env.net "h://x/a.jar" = none ∧
      download_file c10Env [] "h://x/a.jar" "d" none false =
        ⟨none, false, [], [], ["h://x/a.jar"]⟩) :=
  ⟨⟨rfl,
    (download_file_total_errors_as_values c10Env c10Fs "h://x/a.jar" "d"
      (some 5)).2.1 ⟨"h", "s", 5⟩ rfl (Or.inr rfl)⟩,
   ⟨rfl,
    (download_file_total_errors_as_values c10Env [] "h://x/a.jar" "d"
      none).2.2 (Or.inl rfl) (Or.inl rfl)⟩⟩

theorem findRec_map_self (r : CacheRecord) :
    ∀ db : List CacheRecord,
      db.any (fun x => x.project_id = r.project_id) = true →
      findRec (db.map (fun x => if x.project_id = r.project_id then r else x))
        r.project_id = some r := by
  intro db
  induction db with
  | nil => intro h; simp at h
  | cons x xs ih =>
    intro h
    by_cases hx : x.project_id = r.project_id
    · simp [findRec, hx]
    · simp only [List.any_cons, Bool.or_eq_true, decide_eq_true_eq] at h
      simp only [List.map_cons, if_neg hx, findRec]
      exact ih (h.resolve_left hx)

theorem findRec_append_self (r : CacheRecord) :
    ∀ db : List CacheRecord,
      db.any (fun x => x.project_id = r.project_id) = false →
      findRec (db ++ [r]) r.project_id = some r := by
  intro db
  induction db with
  | nil => intro _; simp [findRec]
  | cons x xs ih =>
    intro h
    simp only [List.any_cons, Bool.or_eq_false_iff, decide_eq_false_iff_not] at h
    simp only [List.cons_append, findRec, if_neg h.1]
    exact ih h.2

theorem findRec_upsert_self (db : List CacheRecord) (r : CacheRecord) :
    findRec (upsertRec db r) r.project_id = some r := by
  unfold upsertRec
  split
  · exact findRec_map_self r db ‹_›
  · rename_i h
    exact findRec_append_self r db (by simpa using h)

theorem download_file_fetch_transfers (env : Env) (fs : Fs) (url fp : String) :
    (download_file_fetch env fs url fp).transfers = [url] := by
  unfold download_file_fetch
  cases hn : env.net url with
  | none => rfl
  | some c => by_cases hw : env.writeFails fp = true <;> simp [hw]

theorem wrapper_transfers_sub (env : Env) (fs : Fs) (url dir : String)
    (esz : Option Nat) (dr ua : Bool) (u : String)
    (hu : u ∈ (download_file_wrapper env fs url dir esz dr ua).transfers) :
    u = url := by
  unfold download_file_wrapper async_download_file at hu
  split at hu
  · rw [download_file_fetch_transfers] at hu
    simpa using hu
  · unfold download_file at hu
    split at hu
    · simp at hu
    · split at hu
      · split at hu
        · simp at hu
        · rw [download_file_fetch_transfers] at hu
          simpa using hu
      · rw [download_file_fetch_transfers] at hu
        simpa using hu

theorem updateLoop_dry (env : Env) (pid modsDir loader vnum : String)
    (useAsync : Bool) :
    ∀ (l : List VFile) (acc : UpdAcc),
      updateLoop env pid modsDir loader vnum true useAsync l acc = acc := by
  intro l
  induction l with
  | nil => intro acc; rfl
  | cons fi rest ih =>
    intro acc
    unfold updateLoop
    cases hp : fi.primary <;> simp [hp, ih]

theorem updateLoop_no_primary (env : Env) (pid modsDir loader vnum : String)
    (dryRun useAsync : Bool) :
    ∀ (l : List VFile) (acc : UpdAcc),
      (∀ fi ∈ l, fi.primary = false) →
      updateLoop env pid modsDir loader vnum dryRun useAsync l acc = acc := by
  intro l
  induction l with
  | nil => intro acc _; rfl
  | cons fi rest ih =>
    intro acc h
    have hfi := h fi (List.mem_cons_self fi rest)
    unfold updateLoop
    simp only [hfi, Bool.false_eq_true, if_false]
    exact ih acc (fun g hg => h g (List.mem_cons_of_mem _ hg))

theorem updateLoop_transfers_mono (env : Env) (pid modsDir loader vnum : String)
    (dryRun useAsync : Bool) :
    ∀ (l : List VFile) (acc : UpdAcc) (u : String),
      u ∈ acc.transfers →
      u ∈ (updateLoop env pid modsDir loader vnum dryRun useAsync l acc).transfers := by
  intro l
  induction l with
  | nil => intro acc u h; exact h
  | cons fi rest ih =>
    intro acc u h
    unfold updateLoop
    cases hp : fi.primary
    · simp only [Bool.false_eq_true, if_false]
      exact ih acc u h
    · cases hd : dryRun <;> subst hd
      · simp only [Bool.false_eq_true, if_false, if_pos rfl]
        exact ih _ u (by simp [h])
      · simp only [if_pos rfl]
        exact ih acc u h

theorem updateLoop_primary_transfer (env : Env) (pid modsDir loader vnum : String)
    (useAsync : Bool) :
    ∀ (l : List VFile) (acc : UpdAcc) (fi : VFile),
      fi ∈ l → fi.primary = true →
      fi.url ∈ (updateLoop env pid modsDir loader vnum false useAsync l acc).transfers := by
  intro l
  induction l with
  | nil => intro acc fi h; simp at h
  | cons g rest ih =>
    intro acc fi hmem hp
    rcases List.mem_cons.mp hmem with rfl | hmem'
    · unfold updateLoop
      rw [hp]
      simp only [Bool.false_eq_true, if_false, if_pos rfl]
      exact updateLoop_transfers_mono env pid modsDir loader vnum false useAsync
        rest _ fi.url (by simp)
    · unfold updateLoop
      cases hp2 : g.primary
      · simp only [Bool.false_eq_true, if_false]
        exact ih acc fi hmem' hp
      · simp only [Bool.false_eq_true, if_false, if_pos rfl]
        exact ih _ fi hmem' hp

theorem updateLoop_transfers_sub (env : Env) (pid modsDir loader vnum : String)
    (dryRun useAsync : Bool) :
    ∀ (l : List VFile) (acc : UpdAcc) (u : String),
      u ∈ (updateLoop env pid modsDir loader vnum dryRun useAsync l acc).transfers →
      u ∈ acc.transfers ∨ ∃ fi, fi ∈ l ∧ fi.primary = true ∧ fi.url = u := by
  intro l
  induction l with
  | nil => intro acc u h; exact Or.inl h
  | cons g rest ih =>
    intro acc u h
    unfold updateLoop at h
    have weaken : (u ∈ acc.transfers ∨ ∃ fi, fi ∈ rest ∧ fi.primary = true ∧ fi.url = u) →
        u ∈ acc.transfers ∨ ∃ fi, fi ∈ g :: rest ∧ fi.primary = true ∧ fi.url = u := by
      rintro (h' | ⟨fi, hm, hp, hu⟩)
      · exact Or.inl h'
      · exact Or.inr ⟨fi, List.mem_cons_of_mem _ hm, hp, hu⟩
    cases hp : g.primary
    · rw [hp] at h
      simp only [Bool.false_eq_true, if_false] at h
      exact weaken (ih acc u h)
    · rw [hp] at h
      cases hd : dryRun <;> subst hd
      · simp only [Bool.false_eq_true, if_false, if_pos rfl] at h
        rcases ih _ u h with h' | h'
        · rcases List.mem_append.mp h' with h2 | h2
          · rcases List.mem_append.mp h2 with h3 | h3
            · exact Or.inl h3
            · refine Or.inr ⟨g, List.mem_cons_self _ _, hp, ?_⟩
              have : u = g.url := by simpa using h3
              exact this.symm
          · refine Or.inr ⟨g, List.mem_cons_self _ _, hp, ?_⟩
            exact (wrapper_transfers_sub _ _ _ _ _ _ _ _ h2).symm
        · exact weaken (Or.inr h')
      · simp only [if_pos rfl] at h
        exact weaken (ih acc u h)

theorem updateLoop_db_preserve (env : Env) (pid modsDir loader vnum : String)
    (dryRun useAsync : Bool) :
    ∀ (l : List VFile) (acc : UpdAcc),
      (∃ r, findRec acc.db pid = some r ∧ r.version_number = vnum) →
      ∃ r, findRec (updateLoop env pid modsDir loader vnum dryRun useAsync l acc).db
          pid = some r ∧ r.version_number = vnum := by
  intro l
  induction l with
  | nil => intro acc h; exact h
  | cons fi rest ih =>
    intro acc h
    unfold updateLoop
    cases hp : fi.primary
    · simp only [Bool.false_eq_true, if_false]
      exact ih acc h
    · cases hd : dryRun <;> subst hd
      · simp only [Bool.false_eq_true, if_false, if_pos rfl]
        exact ih _ ⟨_, findRec_upsert_self acc.db _, rfl⟩
      · simp only [if_pos rfl]
        exact ih acc h

theorem updateLoop_db_version (env : Env) (pid modsDir loader vnum : String)
    (useAsync : Bool) :
    ∀ (l : List VFile) (acc : UpdAcc),
      (∃ fi, fi ∈ l ∧ fi.primary = true) →
      ∃ r, findRec (updateLoop env pid modsDir loader vnum false useAsync l acc).db
          pid = some r ∧ r.version_number = vnum := by
  intro l
  induction l with
  | nil => intro acc h; simp at h
  | cons g rest ih =>
    intro acc h
    unfold updateLoop
    cases hp : g.primary
    · simp only [Bool.false_eq_true, if_false]
      apply ih
      rcases h with ⟨fi, hm, hfp⟩
      rcases List.mem_cons.mp hm with rfl | hm'
      · rw [hp] at hfp; cases hfp
      · exact ⟨fi, hm', hfp⟩
    · simp only [Bool.false_eq_true, if_false, if_pos rfl]
      exact updateLoop_db_preserve env pid modsDir loader vnum false useAsync rest _
        ⟨_, findRec_upsert_self acc.db _, rfl⟩

theorem updateLoop_entry_keep_or_primary (env : Env)
    (pid modsDir loader vnum : String) (useAsync : Bool) :
    ∀ (l : List VFile) (acc : UpdAcc),
      (updateLoop env pid modsDir loader vnum false useAsync l acc).entry = acc.entry ∨
      ∃ fi, fi ∈ l ∧ fi.primary = true ∧
        (updateLoop env pid modsDir loader vnum false useAsync l acc).entry.downloads =
          [fi.url] := by
  intro l
  induction l with
  | nil => intro acc; exact Or.inl rfl
  | cons g rest ih =>
    intro acc
    unfold updateLoop
    cases hp : g.primary
    · simp only [Bool.false_eq_true, if_false]
      rcases ih acc with h | ⟨fi, hm, hfp, hd⟩
      · exact Or.inl h
      · exact Or.inr ⟨fi, List.mem_cons_of_mem _ hm, hfp, hd⟩
    · simp only [Bool.false_eq_true, if_false, eq_self_iff_true, if_true]
      rcases ih _ with h | ⟨fi, hm, hfp, hd⟩
      · right
        refine ⟨g, List.mem_cons_self _ _, hp, ?_⟩
        rw [h]
      · exact Or.inr ⟨fi, List.mem_cons_of_mem _ hm, hfp, hd⟩

theorem processEntry_digest_hit
    (env : Env) (gv ml modsDir : String) (dryRun useAsync : Bool)
    (st : RecState) (e : FileEntry) (pid : String) (rel : Release) (f0 : VFile)
    (c : CacheRecord) (fc : RemoteContent)
    (hpid : projectIdOf e = some pid)
    (hcat : env.cat pid gv ml = some rel)
    (hhead : rel.files.head? = some f0)
    (hcur : findRec st.db pid = some c)
    (hfile : fsFind st.fs (pathJoin modsDir f0.filename) = some fc)
    (hsha : some fc.sha1 = c.sha1) :
    processEntry env gv ml modsDir dryRun useAsync st e =
      { st with entries := st.entries ++ [e],
                report := st.report ++ [Outcome.upToDate] } := by
  simp [processEntry, hpid, hcat, hhead, hcur, hfile, calculate_local_file_sha1, hsha]

theorem processEntry_version_eq
    (env : Env) (gv ml modsDir : String) (dryRun useAsync : Bool)
    (st : RecState) (e : FileEntry) (pid : String) (rel : Release)
    (c : CacheRecord)
    (hpid : projectIdOf e = some pid)
    (hcat : env.cat pid gv ml = some rel)
    (hne : rel.files ≠ [])
    (hcur : findRec st.db pid = some c)
    (hv : c.version_number = rel.version_number) :
    processEntry env gv ml modsDir dryRun useAsync st e =
      { st with entries := st.entries ++ [e],
                report := st.report ++ [Outcome.upToDate] } := by
  cases hfs : rel.files with
  | nil => exact absurd hfs hne
  | cons f0 fs' =>
    have hhead : rel.files.head? = some f0 := by rw [hfs]; rfl
    cases hf : fsFind st.fs (pathJoin modsDir f0.filename) with
    | none => simp [processEntry, hpid, hcat, hhead, hcur, hf, hv]
    | some fc =>
      by_cases hs : some fc.sha1 = c.sha1
      · simp [processEntry, hpid, hcat, hhead, hcur, hf,
          calculate_local_file_sha1, hs]
      · simp [processEntry, hpid, hcat, hhead, hcur, hf,
          calculate_local_file_sha1, hs, hv]

theorem processEntry_needs_none
    (env : Env) (gv ml modsDir : String) (dryRun useAsync : Bool)
    (st : RecState) (e : FileEntry) (pid : String) (rel : Release) (f0 : VFile)
    (hpid : projectIdOf e = some pid)
    (hcat : env.cat pid gv ml = some rel)
    (hhead : rel.files.head? = some f0)
    (hcur : findRec st.db pid = none) :
    processEntry env gv ml modsDir dryRun useAsync st e =
      processEntryUpdate env ml modsDir dryRun useAsync st e pid rel := by
  simp [processEntry, hpid, hcat, hhead, hcur]

theorem processEntry_needs_some
    (env : Env) (gv ml modsDir : String) (dryRun useAsync : Bool)
    (st : RecState) (e : FileEntry) (pid : String) (rel : Release) (f0 : VFile)
    (c : CacheRecord)
    (hpid : projectIdOf e = some pid)
    (hcat : env.cat pid gv ml = some rel)
    (hhead : rel.files.head? = some f0)
    (hcur : findRec st.db pid = some c)
    (hnohit : ∀ fc, fsFind st.fs (pathJoin modsDir f0.filename) = some fc →
      some fc.sha1 ≠ c.sha1)
    (hv : c.version_number ≠ rel.version_number) :
    processEntry env gv ml modsDir dryRun useAsync st e =
      processEntryUpdate env ml modsDir dryRun useAsync st e pid rel := by
  cases hf : fsFind st.fs (pathJoin modsDir f0.filename) with
  | none => simp [processEntry, hpid, hcat, hhead, hcur, hf, hv]
  | some fc =>
    simp [processEntry, hpid, hcat, hhead, hcur, hf,
      calculate_local_file_sha1, hnohit fc hf, hv]

theorem processEntryUpdate_dry (env : Env) (ml modsDir : String) (useAsync : Bool)
    (st : RecState) (e : FileEntry) (pid : String) (rel : Release) :
    processEntryUpdate env ml modsDir true useAsync st e pid rel =
      { st with entries := st.entries ++ [e],
                report := st.report ++ [Outcome.updateNeeded] } := by
  unfold processEntryUpdate
  rw [updateLoop_dry]
  simp

theorem processEntryUpdate_effects (env : Env) (ml modsDir : String)
    (useAsync : Bool) (st : RecState) (e : FileEntry) (pid : String)
    (rel : Release) (fi : VFile) (hm : fi ∈ rel.files) (hp : fi.primary = true) :
    fi.url ∈ (processEntryUpdate env ml modsDir false useAsync st e pid rel).transfers ∧
    ∃ r, findRec (processEntryUpdate env ml modsDir false useAsync st e pid rel).db
        pid = some r ∧ r.version_number = rel.version_number := by
  constructor
  · unfold processEntryUpdate
    exact List.mem_append_right _
      (updateLoop_primary_transfer env pid modsDir ml rel.version_number useAsync
        rel.files _ fi hm hp)
  · unfold processEntryUpdate
    exact updateLoop_db_version env pid modsDir ml rel.version_number useAsync
      rel.files _ ⟨fi, hm, hp⟩

/-- **C1 counterexample.** A state satisfying every hypothesis of the
claim as stated — cache record present, a file on disk at the entry's
own local path (`current/` + `mods/a.jar`), and that file's fresh
SHA-1 equal to the cached one — on which the decision is nevertheless
`UpdateNeeded`: a content download occurs and both the manifest entry
and the cache record are mutated, because the code checks the file
named by the latest release's first file, not the entry's path
(mod_manager.py line 196). -/
theorem shortcircuit_entry_path_counterexample :
    findRec c1St.db "P1" = some c1Cache ∧
    c1Entry.path = some "mods/a.jar" ∧
    calculate_local_file_sha1 c1St.fs (pathJoin "current" "mods/a.jar") =
      c1Cache.sha1 ∧
    c1Env.cat "P1" "1.20.1" "fabric" = some c1Rel ∧
    c1Rel.version_number ≠ c1Cache.version_number ∧
    c1Result.report = [Outcome.updateNeeded] ∧
    c1Result.transfers ≠ [] ∧
    c1Result.db ≠ c1St.db ∧
    c1Result.entries ≠ [c1Entry] :=
  ⟨rfl, rfl, rfl, rfl, of_decide_eq_true rfl, rfl, of_decide_eq_true rfl,
   of_decide_eq_true rfl, of_decide_eq_true rfl⟩

/-- **C1 (amended).** The digest short-circuit checks the file at the
path derived from the mods directory and the **latest release's first
file's filename** (not the entry's recorded local path): when a cache
record is present and the file at that derived path exists with a
fresh SHA-1 equal to the cached SHA-1, the outcome is `UpToDate` — no
content download, no mutation of the entry, the cache, or the
filesystem — even when the catalog reports a different version
number. -/
theorem shortcircuit_release_filename_up_to_date
    (env : Env) (gv ml modsDir : String) (dryRun useAsync : Bool)
    (st : RecState) (e : FileEntry) (pid : String) (rel : Release) (f0 : VFile)
    (c : CacheRecord) (fc : RemoteContent)
    (hpid : projectIdOf e = some pid)
    (hcat : env.cat pid gv ml = some rel)
    (hhead : rel.files.head? = some f0)
    (hcur : findRec st.db pid = some c)
    (hfile : fsFind st.fs (pathJoin modsDir f0.filename) = some fc)
    (hsha : some fc.sha1 = c.sha1) :
    processEntry env gv ml modsDir dryRun useAsync st e =
      { st with entries := st.entries ++ [e],
                report := st.report ++ [Outcome.upToDate] } :=
  processEntry_digest_hit env gv ml modsDir dryRun useAsync st e pid rel f0 c fc
    hpid hcat hhead hcur hfile hsha

/-- Witness for the amended C1: the cached version is `1.0`, the
catalog reports `2.0`, the on-disk file at the release-derived path
matches the cached digest — outcome `UpToDate`, nothing mutated. -/
theorem shortcircuit_release_filename_up_to_date_witness :
    projectIdOf c1Entry = some "P1" ∧
    c1wEnv.cat "P1" "1.20.1" "fabric" = some c1wRel ∧
    c1wRel.version_number ≠ c1Cache.version_number ∧
    processEntry c1wEnv "1.20.1" "fabric" "current/mods" false false c1St c1Entry =
      { c1St with entries := [c1Entry], report := [Outcome.upToDate] } :=
  ⟨rfl, rfl, of_decide_eq_true rfl,
   shortcircuit_release_filename_up_to_date c1wEnv "1.20.1" "fabric" "current/mods"
     false false c1St c1Entry "P1" c1wRel ⟨"a.jar", "h://c/d/P1/v2/a.jar", true⟩
     c1Cache ⟨"H1", "S1", 10⟩ rfl rfl rfl rfl rfl rfl⟩

/-- **C2.** For an entry that reaches step 3 (project id derived,
release found with a non-empty file list) and misses the digest
short-circuit, the outcome is `UpdateNeeded` exactly when there is no
cache record for the project id or the cached version number differs
from the release's; and in that case, in a non-dry run, every file
flagged primary is fetched and the cache record for the project ends
up carrying the release's version number. -/
theorem update_needed_iff_cache_miss_or_version_change
    (env : Env) (gv ml modsDir : String) (dryRun useAsync : Bool)
    (st : RecState) (e : FileEntry) (pid : String) (rel : Release) (f0 : VFile)
    (hpid : projectIdOf e = some pid)
    (hcat : env.cat pid gv ml = some rel)
    (hhead : rel.files.head? = some f0)
    (hnohit : ∀ c, findRec st.db pid = some c →
      ∀ fc, fsFind st.fs (pathJoin modsDir f0.filename) = some fc →
      some fc.sha1 ≠ c.sha1) :
    ((processEntry env gv ml modsDir dryRun useAsync st e).report =
        st.report ++ [Outcome.updateNeeded] ↔
      (findRec st.db pid = none ∨
        ∃ c, findRec st.db pid = some c ∧ c.version_number ≠ rel.version_number)) ∧
    ((findRec st.db pid = none ∨
        ∃ c, findRec st.db pid = some c ∧ c.version_number ≠ rel.version_number) →
      dryRun = false →
      ∀ fi ∈ rel.files, fi.primary = true →
        fi.url ∈ (processEntry env gv ml modsDir dryRun useAsync st e).transfers ∧
        ∃ r, findRec (processEntry env gv ml modsDir dryRun useAsync st e).db pid =
            some r ∧ r.version_number = rel.version_number) := by
  have hne : rel.files ≠ [] := by
    intro h
    rw [h] at hhead
    cases hhead
  cases hcur : findRec st.db pid with
  | none =>
    have heq := processEntry_needs_none env gv ml modsDir dryRun useAsync st e pid
      rel f0 hpid hcat hhead hcur
    rw [heq]
    constructor
    · apply iff_of_true
      · simp [processEntryUpdate]
      · exact Or.inl rfl
    · intro _ hdry fi hm hp
      subst hdry
      exact processEntryUpdate_effects env ml modsDir useAsync st e pid rel fi hm hp
  | some c =>
    by_cases hv : c.version_number = rel.version_number
    · have heq := processEntry_version_eq env gv ml modsDir dryRun useAsync st e pid
        rel c hpid hcat hne hcur hv
      rw [heq]
      have hrhs : ¬((some c : Option CacheRecord) = none ∨
          ∃ c', (some c : Option CacheRecord) = some c' ∧
            c'.version_number ≠ rel.version_number) := by
        rintro (h | ⟨c', hc', hv'⟩)
        · cases h
        · cases hc'
          exact hv' hv
      constructor
      · apply iff_of_false
        · simp
        · exact hrhs
      · intro hcond
        exact absurd hcond hrhs
    · have heq := processEntry_needs_some env gv ml modsDir dryRun useAsync st e pid
        rel f0 c hpid hcat hhead hcur (fun fc hfc => hnohit c hcur fc hfc) hv
      rw [heq]
      constructor
      · apply iff_of_true
        · simp [processEntryUpdate]
        · exact Or.inr ⟨c, rfl, hv⟩
      · intro _ hdry fi hm hp
        subst hdry
        exact processEntryUpdate_effects env ml modsDir useAsync st e pid rel fi hm hp

/-- Witness for C2 at the spec's example: cached version `1.0`,
upstream `1.1`, no local file — the outcome is `UpdateNeeded`, the
primary file's URL is fetched, and the cache version becomes `1.1`. -/
theorem update_needed_iff_cache_miss_or_version_change_witness :
    findRec c2St.db "P1" = some c2Cache ∧
    c2Cache.version_number = "1.0" ∧ c2Rel.version_number = "1.1" ∧
    fsFind c2St.fs (pathJoin "current/mods" "m.jar") = none ∧
    c2Result.report = [Outcome.updateNeeded] ∧
    (c2Url ∈ c2Result.transfers ∧
      ∃ r, findRec c2Result.db "P1" = some r ∧ r.version_number = "1.1") := by
  refine ⟨rfl, rfl, rfl, rfl, ?_, ?_⟩
  · have h := (update_needed_iff_cache_miss_or_version_change c2Env "1.20.1"
      "fabric" "current/mods" false false c2St c2Entry "P1" c2Rel
      ⟨"m.jar", c2Url, true⟩ rfl rfl rfl
      (by
        intro c hc fc hfc
        rw [show fsFind c2St.fs (pathJoin "current/mods" "m.jar") = none from rfl]
          at hfc
        cases hfc)).1.mpr
      (Or.inr ⟨c2Cache, rfl, of_decide_eq_true rfl⟩)
    simpa using h
  · have h := (update_needed_iff_cache_miss_or_version_change c2Env "1.20.1"
      "fabric" "current/mods" false false c2St c2Entry "P1" c2Rel
      ⟨"m.jar", c2Url, true⟩ rfl rfl rfl
      (by
        intro c hc fc hfc
        rw [show fsFind c2St.fs (pathJoin "current/mods" "m.jar") = none from rfl]
          at hfc
        cases hfc)).2
      (Or.inr ⟨c2Cache, rfl, of_decide_eq_true rfl⟩) rfl
      ⟨"m.jar", c2Url, true⟩ (List.mem_singleton.mpr rfl) rfl
    exact h

/-- **C3 counterexample.** An entry decided `UpdateNeeded` (no cache
record) in a non-dry run, whose release has exactly one file and it is
not flagged primary: nothing is fetched and nothing is updated — there
is no fall-back to the first file in the reconciler. -/
theorem no_primary_no_fetch_counterexample :
    findRec c3St.db "P3" = none ∧
    c3Env.cat "P3" "1.20.1" "fabric" = some c3Rel ∧
    (∀ fi ∈ c3Rel.files, fi.primary = false) ∧
    c3Rel.files ≠ [] ∧
    c3Result.report = [Outcome.updateNeeded] ∧
    c3Result.transfers = [] ∧
    c3Result.writes = [] ∧
    c3Result.db = c3St.db ∧
    c3Result.entries = [c3Entry] := by
  refine ⟨rfl, rfl, ?_, of_decide_eq_true rfl, rfl, rfl, rfl, rfl, rfl⟩
  intro fi hm
  have : fi = ⟨"n.jar", c3Url, false⟩ := by simpa [c3Rel] using hm
  rw [this]

/-- **C3 (amended).** In the reconciler's non-dry `UpdateNeeded`
branch, only files flagged primary are fetched (every transferred URL
belongs to some primary-flagged file of the release), and when no file
is flagged primary nothing is fetched and neither the entry, the
cache, the filesystem, nor any log changes — the first-file fallback
exists only in the interactive add flow (`add_mod_interactive`). -/
theorem fetch_only_primary_files
    (env : Env) (gv ml modsDir : String) (useAsync : Bool)
    (st : RecState) (e : FileEntry) (pid : String) (rel : Release) (f0 : VFile)
    (hpid : projectIdOf e = some pid)
    (hcat : env.cat pid gv ml = some rel)
    (hhead : rel.files.head? = some f0) :
    (∀ u ∈ (processEntry env gv ml modsDir false useAsync st e).transfers,
      u ∈ st.transfers ∨ ∃ fi, fi ∈ rel.files ∧ fi.primary = true ∧ fi.url = u) ∧
    ((∀ fi ∈ rel.files, fi.primary = false) →
      (processEntry env gv ml modsDir false useAsync st e).transfers = st.transfers ∧
      (processEntry env gv ml modsDir false useAsync st e).writes = st.writes ∧
      (processEntry env gv ml modsDir false useAsync st e).db = st.db ∧
      (processEntry env gv ml modsDir false useAsync st e).fs = st.fs ∧
      (processEntry env gv ml modsDir false useAsync st e).entries =
        st.entries ++ [e]) := by
  constructor
  · intro u hu
    unfold processEntry at hu
    simp only [hpid, hcat, hhead] at hu
    cases hcur : findRec st.db pid with
    | none =>
      rw [hcur] at hu
      simp only [processEntryUpdate] at hu
      rcases List.mem_append.mp hu with h | h
      · exact Or.inl h
      · rcases updateLoop_transfers_sub env pid modsDir ml rel.version_number false
            useAsync rel.files _ u h with h2 | h2
        · simp at h2
        · exact Or.inr h2
    | some c =>
      rw [hcur] at hu
      cases hf : fsFind st.fs (pathJoin modsDir f0.filename) with
      | none =>
        rw [hf] at hu
        by_cases hv : c.version_number = rel.version_number
        · simp [hv] at hu
          exact Or.inl hu
        · simp [hv, processEntryUpdate] at hu
          rcases hu with hu | hu
          · exact Or.inl hu
          · rcases updateLoop_transfers_sub env pid modsDir ml rel.version_number
                false useAsync rel.files _ u hu with h | h
            · simp at h
            · exact Or.inr h
      | some fc =>
        rw [hf] at hu
        by_cases hs : some fc.sha1 = c.sha1
        · simp [calculate_local_file_sha1, hf, hs] at hu
          exact Or.inl hu
        · by_cases hv : c.version_number = rel.version_number
          · simp [calculate_local_file_sha1, hf, hs, hv] at hu
            exact Or.inl hu
          · simp [calculate_local_file_sha1, hf, hs, hv, processEntryUpdate] at hu
            rcases hu with hu | hu
            · exact Or.inl hu
            · rcases updateLoop_transfers_sub env pid modsDir ml rel.version_number
                  false useAsync rel.files _ u hu with h | h
              · simp at h
              · exact Or.inr h
  · intro hnp
    have hloop := updateLoop_no_primary env pid modsDir ml rel.version_number false
      useAsync rel.files ⟨e, st.db, st.fs, [], [], []⟩ hnp
    unfold processEntry
    simp only [hpid, hcat, hhead]
    cases hcur : findRec st.db pid with
    | none =>
      simp only [processEntryUpdate, hloop]
      simp
    | some c =>
      cases hf : fsFind st.fs (pathJoin modsDir f0.filename) with
      | none =>
        by_cases hv : c.version_number = rel.version_number
        · simp [hv]
        · simp [hv, processEntryUpdate, hloop]
      | some fc =>
        by_cases hs : some fc.sha1 = c.sha1
        · simp [calculate_local_file_sha1, hf, hs]
        · by_cases hv : c.version_number = rel.version_number
          · simp [calculate_local_file_sha1, hf, hs, hv]
          · simp [calculate_local_file_sha1, hf, hs, hv, processEntryUpdate, hloop]

/-- Witness for the amended C3: a release with one non-primary and one
primary file — every transfer is the primary file's URL. -/
theorem fetch_only_primary_files_witness :
    projectIdOf c3Entry = some "P3" ∧
    c3wEnv.cat "P3" "1.20.1" "fabric" = some c3wRel ∧
    (∀ u ∈ c3wResult.transfers,
      u ∈ c3St.transfers ∨ ∃ fi, fi ∈ c3wRel.files ∧ fi.primary = true ∧ fi.url = u) ∧
    c3wResult.transfers = [c3wUrlB, c3wUrlB] :=
  ⟨rfl, rfl,
   (fetch_only_primary_files c3wEnv "1.20.1" "fabric" "current/mods" false c3St
     c3Entry "P3" c3wRel ⟨"x.jar", c3wUrlA, false⟩ rfl rfl rfl).1,
   rfl⟩

theorem processEntry_dry_fields (env : Env) (gv ml modsDir : String)
    (useAsync : Bool) (st : RecState) (e : FileEntry) :
    (processEntry env gv ml modsDir true useAsync st e).entries = st.entries ++ [e] ∧
    (processEntry env gv ml modsDir true useAsync st e).db = st.db ∧
    (processEntry env gv ml modsDir true useAsync st e).fs = st.fs ∧
    (processEntry env gv ml modsDir true useAsync st e).transfers = st.transfers ∧
    (processEntry env gv ml modsDir true useAsync st e).writes = st.writes ∧
    (processEntry env gv ml modsDir true useAsync st e).updatesLog = st.updatesLog := by
  simp only [processEntry]
  split
  · exact ⟨rfl, rfl, rfl, rfl, rfl, rfl⟩
  · split
    · exact ⟨rfl, rfl, rfl, rfl, rfl, rfl⟩
    · split
      · exact ⟨rfl, rfl, rfl, rfl, rfl, rfl⟩
      · split
        · exact ⟨rfl, rfl, rfl, rfl, rfl, rfl⟩
        · split
          · rw [processEntryUpdate_dry]
            exact ⟨rfl, rfl, rfl, rfl, rfl, rfl⟩
          · exact ⟨rfl, rfl, rfl, rfl, rfl, rfl⟩

theorem processEntries_dry (env : Env) (gv ml modsDir : String) (useAsync : Bool) :
    ∀ (l : List FileEntry) (st : RecState),
      (processEntries env gv ml modsDir true useAsync l st).entries =
        st.entries ++ l ∧
      (processEntries env gv ml modsDir true useAsync l st).db = st.db ∧
      (processEntries env gv ml modsDir true useAsync l st).fs = st.fs ∧
      (processEntries env gv ml modsDir true useAsync l st).transfers = st.transfers ∧
      (processEntries env gv ml modsDir true useAsync l st).writes = st.writes ∧
      (processEntries env gv ml modsDir true useAsync l st).updatesLog =
        st.updatesLog := by
  intro l
  induction l with
  | nil => intro st; simp [processEntries]
  | cons e rest ih =>
    intro st
    obtain ⟨h1, h2, h3, h4, h5, h6⟩ :=
      processEntry_dry_fields env gv ml modsDir useAsync st e
    simp only [processEntries]
    by_cases hc : (processEntry env gv ml modsDir true useAsync st e).crashed = true
    · simp only [hc, if_true]
      exact ⟨by simp [h1], h2, h3, h4, h5, h6⟩
    · rw [if_neg hc]
      obtain ⟨g1, g2, g3, g4, g5, g6⟩ :=
        ih (processEntry env gv ml modsDir true useAsync st e)
      refine ⟨?_, ?_, ?_, ?_, ?_, ?_⟩
      · rw [g1, h1]; simp
      · rw [g2, h2]
      · rw [g3, h3]
      · rw [g4, h4]
      · rw [g5, h5]
      · rw [g6, h6]

theorem check_and_update_dry (env : Env) (files : List FileEntry)
    (db : List CacheRecord) (fs : Fs) (logPath gv ml modsDir : String)
    (useAsync : Bool) :
    (check_and_update_mod_versions env files db fs logPath gv ml modsDir true
      useAsync).entries = files ∧
    (check_and_update_mod_versions env files db fs logPath gv ml modsDir true
      useAsync).db = db ∧
    (check_and_update_mod_versions env files db fs logPath gv ml modsDir true
      useAsync).fs = fs ∧
    (check_and_update_mod_versions env files db fs logPath gv ml modsDir true
      useAsync).transfers = [] ∧
    (check_and_update_mod_versions env files db fs logPath gv ml modsDir true
      useAsync).writes = [] := by
  obtain ⟨h1, h2, h3, h4, h5, _⟩ := processEntries_dry env gv ml modsDir useAsync
    files ⟨[], db, fs, [], [], [], [], false⟩
  unfold check_and_update_mod_versions
  simp only [eq_self_iff_true, not_true, false_and, and_false, if_false]
  exact ⟨by simpa using h1, h2, h3, by simpa using h4, by simpa using h5⟩

/-- **C4 counterexample.** A `build_modpack` run with `dryRun = true`:
the backup is skipped, but the manifest is restamped, the canonical
manifest file is rewritten, and the archive is produced — the build
workflow variant does not suppress mutation under dry-run
(mod_manager.py lines 424-435 run unconditionally). -/
theorem build_dry_run_mutates_counterexample :
    build_modpack c4Env c4St "2.0.0" "new summary" true true "current" = c4Result ∧
    c4Result.backups = [] ∧
    c4Result.manifest.versionId = "2.0.0" ∧
    c4Result.manifest.versionId ≠ c4St.manifest.versionId ∧
    c4Result.indexFile ≠ c4St.indexFile ∧
    c4Result.writes ≠ [] ∧
    c4Result.archives = ["2.0.0.mrpack"] :=
  ⟨rfl, rfl, rfl, of_decide_eq_true rfl, of_decide_eq_true rfl,
   of_decide_eq_true rfl, rfl⟩

/-- **C4 (amended).** With `dryRun = true` the **update** workflow
performs only the decision logic: no bytes written, cache, filesystem,
manifest, backups and archives all unchanged.  The **build** workflow
under `dryRun = true` skips only the backup: the manifest is still
restamped, persisted to the canonical path, and archived. -/
theorem dry_run_update_no_mutation_build_skips_backup_only
    (wenv : WorkflowEnv) (st : PackState) (nv ns : String) (pr ua : Bool)
    (cd md lp : String) :
    ((update_pack wenv st nv ns true pr ua cd md lp).manifest = st.manifest ∧
     (update_pack wenv st nv ns true pr ua cd md lp).db = st.db ∧
     (update_pack wenv st nv ns true pr ua cd md lp).fs = st.fs ∧
     (update_pack wenv st nv ns true pr ua cd md lp).indexFile = st.indexFile ∧
     (update_pack wenv st nv ns true pr ua cd md lp).backups = st.backups ∧
     (update_pack wenv st nv ns true pr ua cd md lp).archives = st.archives ∧
     (update_pack wenv st nv ns true pr ua cd md lp).writes = st.writes ∧
     (update_pack wenv st nv ns true pr ua cd md lp).transfers = st.transfers) ∧
    (nv ≠ st.manifest.versionId →
     (wenv.overridesNonEmpty = true → pr = true) →
     wenv.env.writeFails (indexPath cd) = false →
     (build_modpack wenv st nv ns true pr cd).backups = st.backups ∧
     (build_modpack wenv st nv ns true pr cd).manifest =
       { st.manifest with versionId := nv, summary := ns } ∧
     (build_modpack wenv st nv ns true pr cd).indexFile =
       some (index_content { st.manifest with versionId := nv, summary := ns }) ∧
     (build_modpack wenv st nv ns true pr cd).archives =
       st.archives ++ [nv ++ ".mrpack"]) := by
  constructor
  · simp only [update_pack, eq_self_iff_true, if_true]
    split
    · exact ⟨rfl, rfl, rfl, rfl, rfl, rfl, rfl, rfl⟩
    · split
      · exact ⟨rfl, rfl, rfl, rfl, rfl, rfl, rfl, rfl⟩
      · split
        · rename_i gv ml mlv heq
          obtain ⟨h1, h2, h3, h4, h5⟩ := check_and_update_dry wenv.env
            st.manifest.files st.db st.fs lp gv ml md ua
          by_cases hcr : (check_and_update_mod_versions wenv.env st.manifest.files
              st.db st.fs lp gv ml md true ua).crashed = true
          · simp only [hcr, if_true, eq_self_iff_true]
            refine ⟨?_, ?_, ?_, ?_, ?_, ?_, ?_, ?_⟩ <;>
              simp [h1, h2, h3, h4, h5]
          · simp only [hcr, Bool.false_eq_true, if_false, eq_self_iff_true, if_true]
            refine ⟨?_, ?_, ?_, ?_, ?_, ?_, ?_, ?_⟩ <;>
              simp [h1, h2, h3, h4, h5]
        · exact ⟨rfl, rfl, rfl, rfl, rfl, rfl, rfl, rfl⟩
  · intro hnv hov hwf
    simp only [build_modpack, eq_self_iff_true, if_true]
    rw [if_neg hnv, if_neg (by
      rintro ⟨h1, h2⟩
      exact h2 (hov h1))]
    simp only [hwf, Bool.false_eq_true, if_false, eq_self_iff_true, if_true]
    exact ⟨trivial, trivial, applySteps_persist _ _, trivial⟩

/-- Witness for the amended C4: a concrete dry update run (entry that
would need an update) mutates nothing, and a concrete dry build run
skips only the backup while restamping, persisting and archiving. -/
theorem dry_run_update_no_mutation_build_skips_backup_only_witness :
    (c4wResult.manifest = c4wSt.manifest ∧ c4wResult.db = c4wSt.db ∧
     c4wResult.fs = c4wSt.fs ∧ c4wResult.indexFile = c4wSt.indexFile ∧
     c4wResult.backups = c4wSt.backups ∧ c4wResult.archives = c4wSt.archives ∧
     c4wResult.writes = c4wSt.writes ∧ c4wResult.transfers = c4wSt.transfers) ∧
    ("2.0.0" ≠ c4St.manifest.versionId ∧
     c4Result.backups = c4St.backups ∧
     c4Result.manifest =
       { c4St.manifest with versionId := "2.0.0", summary := "new summary" } ∧
     c4Result.indexFile =
       some (index_content
         { c4St.manifest with versionId := "2.0.0", summary := "new summary" }) ∧
     c4Result.archives = c4St.archives ++ ["2.0.0.mrpack"]) :=
  ⟨(dry_run_update_no_mutation_build_skips_backup_only c4wEnv c4wSt "2.0.0" "s"
      true true "current" "current/mods" "logs/l.txt").1,
   of_decide_eq_true rfl,
   (dry_run_update_no_mutation_build_skips_backup_only c4Env c4St "2.0.0"
      "new summary" true true "current" "current/mods" "logs/l.txt").2
     (of_decide_eq_true rfl) (fun _ => rfl) rfl⟩

/-- **C5 counterexample.** A non-dry update run in which the backup
copy cannot complete (`backupOk = false`): the run does **not** abort —
reconciliation is invoked, content is transferred, the cache is
mutated, and the manifest is restamped, with no backup present. -/
theorem backup_failure_run_continues_counterexample :
    c5Env.backupOk = false ∧ c5Env.currentDirExists = true ∧
    update_pack c5Env c5St "2.0" "sum" false true false "current" "current/mods"
      "logs/l5.txt" = c5Result ∧
    c5Result.backups = [] ∧
    c5Result.transfers ≠ [] ∧
    c5Result.db ≠ c5St.db ∧
    c5Result.manifest.versionId = "2.0" :=
  ⟨rfl, rfl, rfl, rfl, of_decide_eq_true rfl, of_decide_eq_true rfl, rfl⟩

/-- **C5 (amended).** When the backup copy cannot complete in a
non-dry update run, the error is caught and logged and the run
continues: the result is identical, field for field, to the run in
which the backup succeeded — except that no backup is recorded. -/
theorem backup_failure_logged_and_run_continues
    (wenv : WorkflowEnv) (st : PackState) (nv ns : String) (pr ua : Bool)
    (cd md lp : String)
    (hnv : nv ≠ st.manifest.versionId)
    (hov : wenv.overridesNonEmpty = true → pr = true)
    (hcd : wenv.currentDirExists = true) :
    (update_pack { wenv with backupOk := false } st nv ns false pr ua cd md
        lp).manifest =
      (update_pack { wenv with backupOk := true } st nv ns false pr ua cd md
        lp).manifest ∧
    (update_pack { wenv with backupOk := false } st nv ns false pr ua cd md lp).db =
      (update_pack { wenv with backupOk := true } st nv ns false pr ua cd md lp).db ∧
    (update_pack { wenv with backupOk := false } st nv ns false pr ua cd md lp).fs =
      (update_pack { wenv with backupOk := true } st nv ns false pr ua cd md lp).fs ∧
    (update_pack { wenv with backupOk := false } st nv ns false pr ua cd md
        lp).indexFile =
      (update_pack { wenv with backupOk := true } st nv ns false pr ua cd md
        lp).indexFile ∧
    (update_pack { wenv with backupOk := false } st nv ns false pr ua cd md
        lp).transfers =
      (update_pack { wenv with backupOk := true } st nv ns false pr ua cd md
        lp).transfers ∧
    (update_pack { wenv with backupOk := false } st nv ns false pr ua cd md
        lp).writes =
      (update_pack { wenv with backupOk := true } st nv ns false pr ua cd md
        lp).writes ∧
    (update_pack { wenv with backupOk := false } st nv ns false pr ua cd md
        lp).archives =
      (update_pack { wenv with backupOk := true } st nv ns false pr ua cd md
        lp).archives ∧
    (update_pack { wenv with backupOk := false } st nv ns false pr ua cd md
        lp).crashed =
      (update_pack { wenv with backupOk := true } st nv ns false pr ua cd md
        lp).crashed ∧
    (update_pack { wenv with backupOk := false } st nv ns false pr ua cd md
        lp).backups = st.backups ∧
    (update_pack { wenv with backupOk := true } st nv ns false pr ua cd md
        lp).backups = st.backups ++ [wenv.backupName] := by
  have hbF : backup_current_version { wenv with backupOk := false } st = st := by
    simp [backup_current_version, hcd]
  have hbT : backup_current_version { wenv with backupOk := true } st =
      { st with backups := st.backups ++ [wenv.backupName] } := by
    simp [backup_current_version, hcd]
  have hover : ¬(wenv.overridesNonEmpty = true ∧ ¬(pr = true)) := by
    rintro ⟨h1, h2⟩
    exact h2 (hov h1)
  simp only [update_pack, Bool.false_eq_true, if_false, hbF, hbT,
    if_neg hnv, if_neg hover]
  rcases hgv : get_game_version_and_mod_loader st.manifest.deps with ⟨gvo, mlo, mlvo⟩
  cases gvo with
  | none => simp
  | some gv =>
    cases mlo with
    | none => simp
    | some ml =>
      by_cases hcr : (check_and_update_mod_versions wenv.env st.manifest.files
          st.db st.fs lp gv ml md false ua).crashed = true
      · simp only [hcr, if_true]
        refine ⟨?_, ?_, ?_, ?_, ?_, ?_, ?_, ?_, ?_, ?_⟩ <;> simp
      · simp only [hcr, Bool.false_eq_true, if_false]
        by_cases hwf : wenv.env.writeFails (indexPath cd) = true
        · simp only [hwf, if_true]
          refine ⟨?_, ?_, ?_, ?_, ?_, ?_, ?_, ?_, ?_, ?_⟩ <;> simp
        · simp only [hwf, Bool.false_eq_true, if_false]
          refine ⟨?_, ?_, ?_, ?_, ?_, ?_, ?_, ?_, ?_, ?_⟩ <;> simp

/-- Witness for the amended C5: on the C5 fixture, the failed-backup
run equals the successful-backup run on every field except `backups`. -/
theorem backup_failure_logged_and_run_continues_witness :
    "2.0" ≠ c5St.manifest.versionId ∧
    (update_pack { c5Env with backupOk := false } c5St "2.0" "sum" false true
        false "current" "current/mods" "logs/l5.txt").db =
      (update_pack { c5Env with backupOk := true } c5St "2.0" "sum" false true
        false "current" "current/mods" "logs/l5.txt").db ∧
    (update_pack { c5Env with backupOk := false } c5St "2.0" "sum" false true
        false "current" "current/mods" "logs/l5.txt").backups = c5St.backups ∧
    (update_pack { c5Env with backupOk := true } c5St "2.0" "sum" false true
        false "current" "current/mods" "logs/l5.txt").backups =
      c5St.backups ++ [c5Env.backupName] :=
  ⟨of_decide_eq_true rfl,
   (backup_failure_logged_and_run_continues c5Env c5St "2.0" "sum" true false
     "current" "current/mods" "logs/l5.txt" (of_decide_eq_true rfl)
     (fun _ => rfl) rfl).2.1,
   (backup_failure_logged_and_run_continues c5Env c5St "2.0" "sum" true false
     "current" "current/mods" "logs/l5.txt" (of_decide_eq_true rfl)
     (fun _ => rfl) rfl).2.2.2.2.2.2.2.2.1,
   (backup_failure_logged_and_run_continues c5Env c5St "2.0" "sum" true false
     "current" "current/mods" "logs/l5.txt" (of_decide_eq_true rfl)
     (fun _ => rfl) rfl).2.2.2.2.2.2.2.2.2⟩

theorem index_content_ne_empty (m : Manifest) : index_content m ≠ "" := by
  intro h
  have h2 := congrArg String.data h
  simp [index_content, json_dumps, manifestJson, emitVal] at h2

/-- **C6 counterexample.** The persist performed by the code
(truncate-in-place then write) is not atomic: after the truncation
step the canonical path holds an empty file, which is neither the old
content nor the new manifest. -/
theorem persist_not_atomic_counterexample :
    ¬ atomicPersist (persistSteps (index_content c6Manifest)) (some "OLD")
      (index_content c6Manifest) := by
  intro h
  rcases h 1 with h1 | h1 <;> exact absurd h1 (of_decide_eq_true rfl)

/-- **C6 (amended).** The manifest is persisted by opening the
canonical file for writing — truncating it in place — and then writing
the serialized manifest into it (`open(index_path, 'w')` +
`json.dump`); there is no temp file or rename, and at the intermediate
point after truncation a partial (empty) file is visible at the
canonical path, so the write is not atomic whenever the old content is
not itself empty. -/
theorem persist_in_place_truncate_then_write (m : Manifest) (old : Option String)
    (hold : old ≠ some "") :
    applySteps old (persistSteps (index_content m)) = some (index_content m) ∧
    ¬ atomicPersist (persistSteps (index_content m)) old (index_content m) := by
  refine ⟨applySteps_persist old _, ?_⟩
  intro h
  rcases h 1 with h1 | h1
  · rw [show (persistSteps (index_content m)).take 1 = [WriteStep.truncate]
      from rfl] at h1
    simp only [applySteps] at h1
    exact hold h1.symm
  · rw [show (persistSteps (index_content m)).take 1 = [WriteStep.truncate]
      from rfl] at h1
    simp only [applySteps] at h1
    have := Option.some.inj h1
    exact index_content_ne_empty m this.symm

/-- Witness for the amended C6 at a concrete manifest and old file. -/
theorem persist_in_place_truncate_then_write_witness :
    (some "OLD" : Option String) ≠ some "" ∧
    applySteps (some "OLD") (persistSteps (index_content c6Manifest)) =
      some (index_content c6Manifest) ∧
    ¬ atomicPersist (persistSteps (index_content c6Manifest)) (some "OLD")
      (index_content c6Manifest) :=
  ⟨of_decide_eq_true rfl,
   (persist_in_place_truncate_then_write c6Manifest (some "OLD")
     (of_decide_eq_true rfl)).1,
   (persist_in_place_truncate_then_write c6Manifest (some "OLD")
     (of_decide_eq_true rfl)).2⟩

theorem processEntries_single (env : Env) (gv ml md : String) (dr ua : Bool)
    (st : RecState) (e : FileEntry) :
    processEntries env gv ml md dr ua [e] st =
      processEntry env gv ml md dr ua st e := by
  simp only [processEntries]
  by_cases hc : (processEntry env gv ml md dr ua st e).crashed = true
  · simp only [hc, if_true, List.append_nil]
    rw [← hc]
  · rw [if_neg hc]

theorem check_and_update_fields (env : Env) (files : List FileEntry)
    (db : List CacheRecord) (fs : Fs) (lp gv ml md : String) (dr ua : Bool) :
    (check_and_update_mod_versions env files db fs lp gv ml md dr ua).entries =
      (processEntries env gv ml md dr ua files
        ⟨[], db, fs, [], [], [], [], false⟩).entries ∧
    (check_and_update_mod_versions env files db fs lp gv ml md dr ua).db =
      (processEntries env gv ml md dr ua files
        ⟨[], db, fs, [], [], [], [], false⟩).db ∧
    (check_and_update_mod_versions env files db fs lp gv ml md dr ua).fs =
      (processEntries env gv ml md dr ua files
        ⟨[], db, fs, [], [], [], [], false⟩).fs ∧
    (check_and_update_mod_versions env files db fs lp gv ml md dr ua).report =
      (processEntries env gv ml md dr ua files
        ⟨[], db, fs, [], [], [], [], false⟩).report ∧
    (check_and_update_mod_versions env files db fs lp gv ml md dr ua).transfers =
      (processEntries env gv ml md dr ua files
        ⟨[], db, fs, [], [], [], [], false⟩).transfers ∧
    (check_and_update_mod_versions env files db fs lp gv ml md dr ua).crashed =
      (processEntries env gv ml md dr ua files
        ⟨[], db, fs, [], [], [], [], false⟩).crashed := by
  simp only [check_and_update_mod_versions]
  split
  · split
    · exact ⟨rfl, rfl, rfl, rfl, rfl, rfl⟩
    · exact ⟨rfl, rfl, rfl, rfl, rfl, rfl⟩
  · exact ⟨rfl, rfl, rfl, rfl, rfl, rfl⟩

theorem check_single_up_to_date (env : Env) (e : FileEntry) (db : List CacheRecord)
    (fs : Fs) (lp gv ml md : String) (ua : Bool)
    (h : processEntry env gv ml md false ua ⟨[], db, fs, [], [], [], [], false⟩ e =
      ⟨[e], db, fs, [], [], [], [Outcome.upToDate], false⟩) :
    check_and_update_mod_versions env [e] db fs lp gv ml md false ua =
      ⟨[e], db, fs, [], [], [], [Outcome.upToDate], false⟩ := by
  unfold check_and_update_mod_versions
  rw [processEntries_single, h]
  simp

theorem second_run_after_update (env : Env) (gv ml modsDir lp2 : String)
    (useAsync : Bool) (e : FileEntry) (db : List CacheRecord) (fs : Fs)
    (pid : String) (rel : Release) (acc : UpdAcc)
    (hpid : projectIdOf e = some pid)
    (hcat : env.cat pid gv ml = some rel)
    (hne : rel.files ≠ [])
    (hprim : ∃ fi, fi ∈ rel.files ∧ fi.primary = true)
    (hpurl : ∀ fi, fi ∈ rel.files → fi.primary = true →
      (pySplit fi.url '/').get? 4 = some pid)
    (hacc : acc = updateLoop env pid modsDir ml rel.version_number false useAsync
      rel.files ⟨e, db, fs, [], [], []⟩) :
    check_and_update_mod_versions env [acc.entry] acc.db acc.fs lp2 gv ml modsDir
      false useAsync =
      ⟨[acc.entry], acc.db, acc.fs, [], [], [], [Outcome.upToDate], false⟩ := by
  have hpid2 : projectIdOf acc.entry = some pid := by
    rcases updateLoop_entry_keep_or_primary env pid modsDir ml rel.version_number
        useAsync rel.files ⟨e, db, fs, [], [], []⟩ with h | ⟨fi, hm, hp, hd⟩
    · rw [hacc, h]
      exact hpid
    · have hdl : acc.entry.downloads = [fi.url] := by rw [hacc]; exact hd
      simp only [projectIdOf, hdl, List.head?]
      exact hpurl fi hm hp
  obtain ⟨rv, hrv, hrvv⟩ : ∃ r, findRec acc.db pid = some r ∧
      r.version_number = rel.version_number := by
    rw [hacc]
    exact updateLoop_db_version env pid modsDir ml rel.version_number useAsync
      rel.files _ hprim
  exact check_single_up_to_date env acc.entry acc.db acc.fs lp2 gv ml modsDir
    useAsync
    (processEntry_version_eq env gv ml modsDir false useAsync
      ⟨[], acc.db, acc.fs, [], [], [], [], false⟩ acc.entry pid rel rv hpid2 hcat
      hne hrv hrvv)

/-- **C8 counterexample.** Two well-formed entries whose releases share
the file basename `a.jar`: the first run leaves entry `P`'s stale
cache untouched (digest hit) but entry `Q`'s update overwrites
`a.jar`; the second run, with the catalog and network unchanged,
reports `UpdateNeeded` for `P` and performs content transfers —
reconciliation is not idempotent. -/
theorem reconcile_not_idempotent_counterexample :
    c8Run1.crashed = false ∧
    c8Run1.report = [Outcome.upToDate, Outcome.updateNeeded] ∧
    c8Run2.report = [Outcome.updateNeeded, Outcome.upToDate] ∧
    c8Run2.report ≠ [Outcome.upToDate, Outcome.upToDate] ∧
    c8Run2.transfers ≠ [] :=
  ⟨rfl, rfl, rfl, of_decide_eq_true rfl, of_decide_eq_true rfl⟩

/-- **C8 (amended).** For a manifest consisting of a single entry whose
project id is derivable, whose catalog release has files, at least one
of them flagged primary, and whose primary-file URLs carry the same
project id in their fifth path segment (as Modrinth CDN URLs do),
running reconciliation twice in non-dry mode with an unchanged catalog
and network yields `UpToDate` for the entry on the second run, with
zero transfers and zero writes, and the second run changes nothing. -/
theorem reconcile_single_entry_idempotent (env : Env)
    (gv ml modsDir lp1 lp2 : String) (useAsync : Bool)
    (e : FileEntry) (db : List CacheRecord) (fs : Fs) (pid : String)
    (rel : Release) (r1 r2 : RecState)
    (hpid : projectIdOf e = some pid)
    (hcat : env.cat pid gv ml = some rel)
    (hne : rel.files ≠ [])
    (hprim : ∃ fi, fi ∈ rel.files ∧ fi.primary = true)
    (hpurl : ∀ fi, fi ∈ rel.files → fi.primary = true →
      (pySplit fi.url '/').get? 4 = some pid)
    (hr1 : r1 = check_and_update_mod_versions env [e] db fs lp1 gv ml modsDir
      false useAsync)
    (hr2 : r2 = check_and_update_mod_versions env r1.entries r1.db r1.fs lp2 gv ml
      modsDir false useAsync) :
    r2.report = [Outcome.upToDate] ∧ r2.transfers = [] ∧ r2.writes = [] ∧
    r2.entries = r1.entries ∧ r2.db = r1.db ∧ r2.fs = r1.fs := by
  cases hfs : rel.files with
  | nil => exact absurd hfs hne
  | cons f0 fs0 =>
  have hhead : rel.files.head? = some f0 := by rw [hfs]; rfl
  obtain ⟨he, hd, hf, _hrep, _htr, _hcr⟩ := check_and_update_fields env [e] db fs
    lp1 gv ml modsDir false useAsync
  rw [← hr1] at he hd hf
  rw [processEntries_single] at he hd hf
  -- case analysis on the first run's branch
  cases hcur : findRec db pid with
  | none =>
    -- first run takes the update branch
    have hstep := processEntry_needs_none env gv ml modsDir false useAsync
      ⟨[], db, fs, [], [], [], [], false⟩ e pid rel f0 hpid hcat hhead hcur
    rw [hstep] at he hd hf
    simp only [processEntryUpdate] at he hd hf
    have h2 := second_run_after_update env gv ml modsDir lp2 useAsync e db fs pid
      rel _ hpid hcat hne hprim hpurl rfl
    rw [hr2]
    rw [show r1.entries =
        [(updateLoop env pid modsDir ml rel.version_number false useAsync
          rel.files ⟨e, db, fs, [], [], []⟩).entry] by simpa using he,
      show r1.db = (updateLoop env pid modsDir ml rel.version_number false useAsync
          rel.files ⟨e, db, fs, [], [], []⟩).db by simpa using hd,
      show r1.fs = (updateLoop env pid modsDir ml rel.version_number false useAsync
          rel.files ⟨e, db, fs, [], [], []⟩).fs by simpa using hf]
    rw [h2]
    refine ⟨rfl, rfl, rfl, ?_, ?_, ?_⟩
    · simpa using he.symm
    · simpa using hd.symm
    · simpa using hf.symm
  | some c =>
    cases hfsf : fsFind fs (pathJoin modsDir f0.filename) with
    | some fc =>
      by_cases hs : some fc.sha1 = c.sha1
      · -- digest hit on both runs
        have hstep : processEntry env gv ml modsDir false useAsync
            ⟨[], db, fs, [], [], [], [], false⟩ e =
            ⟨[e], db, fs, [], [], [], [Outcome.upToDate], false⟩ :=
          processEntry_digest_hit env gv ml modsDir false useAsync
            ⟨[], db, fs, [], [], [], [], false⟩ e pid rel f0 c fc hpid hcat hhead
            hcur hfsf hs
        have hc1 := check_single_up_to_date env e db fs lp1 gv ml modsDir useAsync
          hstep
        rw [← hr1] at hc1
        rw [hr2, hc1]
        have hc2 := check_single_up_to_date env e db fs lp2 gv ml modsDir useAsync
          hstep
        simp only [hc1] at hc2 ⊢
        rw [hc2]
        exact ⟨rfl, rfl, rfl, rfl, rfl, rfl⟩
      · by_cases hv : c.version_number = rel.version_number
        · -- version equal on both runs
          have hstep : processEntry env gv ml modsDir false useAsync
              ⟨[], db, fs, [], [], [], [], false⟩ e =
              ⟨[e], db, fs, [], [], [], [Outcome.upToDate], false⟩ :=
            processEntry_version_eq env gv ml modsDir false useAsync
              ⟨[], db, fs, [], [], [], [], false⟩ e pid rel c hpid hcat hne hcur hv
          have hc1 := check_single_up_to_date env e db fs lp1 gv ml modsDir
            useAsync hstep
          rw [← hr1] at hc1
          rw [hr2, hc1]
          have hc2 := check_single_up_to_date env e db fs lp2 gv ml modsDir
            useAsync hstep
          simp only [hc1] at hc2 ⊢
          rw [hc2]
          exact ⟨rfl, rfl, rfl, rfl, rfl, rfl⟩
        · -- stale version, no digest hit: update branch
          have hstep := processEntry_needs_some env gv ml modsDir false useAsync
            ⟨[], db, fs, [], [], [], [], false⟩ e pid rel f0 c hpid hcat hhead hcur
            (by
              intro fc2 hfc2
              rw [hfsf] at hfc2
              cases hfc2
              exact hs) hv
          rw [hstep] at he hd hf
          simp only [processEntryUpdate] at he hd hf
          have h2 := second_run_after_update env gv ml modsDir lp2 useAsync e db fs
            pid rel _ hpid hcat hne hprim hpurl rfl
          rw [hr2]
          rw [show r1.entries =
              [(updateLoop env pid modsDir ml rel.version_number false useAsync
                rel.files ⟨e, db, fs, [], [], []⟩).entry] by simpa using he,
            show r1.db = (updateLoop env pid modsDir ml rel.version_number false
                useAsync rel.files ⟨e, db, fs, [], [], []⟩).db by simpa using hd,
            show r1.fs = (updateLoop env pid modsDir ml rel.version_number false
                useAsync rel.files ⟨e, db, fs, [], [], []⟩).fs by simpa using hf]
          rw [h2]
          refine ⟨rfl, rfl, rfl, ?_, ?_, ?_⟩
          · simpa using he.symm
          · simpa using hd.symm
          · simpa using hf.symm
    | none =>
      by_cases hv : c.version_number = rel.version_number
      · have hstep : processEntry env gv ml modsDir false useAsync
            ⟨[], db, fs, [], [], [], [], false⟩ e =
            ⟨[e], db, fs, [], [], [], [Outcome.upToDate], false⟩ :=
          processEntry_version_eq env gv ml modsDir false useAsync
            ⟨[], db, fs, [], [], [], [], false⟩ e pid rel c hpid hcat hne hcur hv
        have hc1 := check_single_up_to_date env e db fs lp1 gv ml modsDir useAsync
          hstep
        rw [← hr1] at hc1
        rw [hr2, hc1]
        have hc2 := check_single_up_to_date env e db fs lp2 gv ml modsDir useAsync
          hstep
        simp only [hc1] at hc2 ⊢
        rw [hc2]
        exact ⟨rfl, rfl, rfl, rfl, rfl, rfl⟩
      · have hstep := processEntry_needs_some env gv ml modsDir false useAsync
          ⟨[], db, fs, [], [], [], [], false⟩ e pid rel f0 c hpid hcat hhead hcur
          (by
            intro fc2 hfc2
            rw [hfsf] at hfc2
            cases hfc2) hv
        rw [hstep] at he hd hf
        simp only [processEntryUpdate] at he hd hf
        have h2 := second_run_after_update env gv ml modsDir lp2 useAsync e db fs
          pid rel _ hpid hcat hne hprim hpurl rfl
        rw [hr2]
        rw [show r1.entries =
            [(updateLoop env pid modsDir ml rel.version_number false useAsync
              rel.files ⟨e, db, fs, [], [], []⟩).entry] by simpa using he,
          show r1.db = (updateLoop env pid modsDir ml rel.version_number false
              useAsync rel.files ⟨e, db, fs, [], [], []⟩).db by simpa using hd,
          show r1.fs = (updateLoop env pid modsDir ml rel.version_number false
              useAsync rel.files ⟨e, db, fs, [], [], []⟩).fs by simpa using hf]
        rw [h2]
        refine ⟨rfl, rfl, rfl, ?_, ?_, ?_⟩
        · simpa using he.symm
        · simpa using hd.symm
        · simpa using hf.symm

/-- Witness for the amended C8: a concrete single-entry manifest — the
first run updates, the second run reports `UpToDate` with zero
transfers. -/
theorem reconcile_single_entry_idempotent_witness :
    c8wRun1.report = [Outcome.updateNeeded] ∧
    c8wRun2.report = [Outcome.upToDate] ∧ c8wRun2.transfers = [] ∧
    c8wRun2.writes = [] ∧ c8wRun2.entries = c8wRun1.entries ∧
    c8wRun2.db = c8wRun1.db ∧ c8wRun2.fs = c8wRun1.fs := by
  refine ⟨rfl, ?_⟩
  have h := reconcile_single_entry_idempotent c8wEnv "1.20.1" "fabric"
    "current/mods" "logs/w1.txt" "logs/w2.txt" false c8wEntry [] [] "P1" c8wRel
    c8wRun1 c8wRun2 rfl rfl (of_decide_eq_true rfl)
    ⟨⟨"m.jar", c8wUrl, true⟩, of_decide_eq_true rfl, rfl⟩
    (by
      intro fi hm hp
      have : fi = ⟨"m.jar", c8wUrl, true⟩ := by simpa [c8wRel] using hm
      rw [this]
      exact rfl)
    rfl rfl
  exact h


/-! ## C9: serializer/parser round-trip lemmas -/

/-- Skipping whitespace drops a whitespace head. -/
theorem skipWs_cons_ws (c : Char) (s : List Char) (h : isWsC c = true) :
    skipWs (c :: s) = skipWs s := by simp [skipWs, h]

/-- Skipping whitespace stops at a non-whitespace head. -/
theorem skipWs_cons_not (c : Char) (s : List Char) (h : isWsC c = false) :
    skipWs (c :: s) = c :: s := by simp [skipWs, h]

/-- Skipping whitespace drops any all-whitespace prefix. -/
theorem skipWs_ws_append (l s : List Char) (h : ∀ c ∈ l, isWsC c = true) :
    skipWs (l ++ s) = skipWs s := by
  induction l with
  | nil => rfl
  | cons c cs ih =>
    rw [List.cons_append, skipWs_cons_ws c _ (h c (List.mem_cons_self c cs))]
    exact ih (fun d hd => h d (List.mem_cons_of_mem _ hd))

/-- Newline, then whitespace, then a non-whitespace character: skipping
whitespace lands exactly on that character. -/
theorem skipWs_nl_ws (ws : List Char) (c : Char) (rest : List Char)
    (hws : ∀ a ∈ ws, isWsC a = true) (hc : isWsC c = false) :
    skipWs ('\n' :: (ws ++ c :: rest)) = c :: rest := by
  rw [skipWs_cons_ws '\n' _ rfl, skipWs_ws_append ws _ hws, skipWs_cons_not c _ hc]

/-- The indentation emitted at depth `d` is all whitespace. -/
theorem indent_all_ws (d : Nat) : ∀ c ∈ indentChars d, isWsC c = true := by
  intro c hc
  rw [List.eq_of_mem_replicate hc]
  rfl

/-- The empty tail trivially satisfies `headNot`. -/
theorem headNot_nil (p : Char → Bool) : headNot p [] := by
  intro a ha
  exact Option.noConfusion (show (none : Option Char) = some a from ha)

/-- A cons tail satisfies `headNot` when its head fails the predicate. -/
theorem headNot_cons (p : Char → Bool) (c : Char) (s : List Char) (h : p c = false) :
    headNot p (c :: s) := by
  intro a ha
  have h2 : some c = some a := ha
  injection h2 with h3
  rw [← h3]
  exact h

/-- The string-body parser consumes exactly the clean body up to the
closing quote. -/
theorem parseStr_append (k rest : List Char)
    (hk : ∀ c ∈ k, c ≠ '"' ∧ c ≠ '\\') :
    parseStr (k ++ '"' :: rest) = some (k, rest) := by
  induction k with
  | nil => rfl
  | cons c cs ih =>
    have hc := hk c (List.mem_cons_self c cs)
    simp only [List.cons_append, parseStr, if_neg hc.1, if_neg hc.2, List.append_eq]
    rw [ih (fun d hd => hk d (List.mem_cons_of_mem _ hd))]

/-- A clean `all` fact unpacked into per-character disequalities. -/
theorem all_chars_clean (s : List Char)
    (h : s.all (fun c => !(c == '"') && !(c == '\\')) = true) :
    ∀ c ∈ s, c ≠ '"' ∧ c ≠ '\\' := by
  intro c hc
  rw [List.all_eq_true] at h
  have h2 := h c hc
  simp only [Bool.and_eq_true, Bool.not_eq_true', beq_eq_false_iff_ne] at h2
  exact h2

/-- The value parser only looks at its input through `skipWs`. -/
theorem parseVal_congr (fuel : Nat) (s t : List Char) (h : skipWs s = skipWs t) :
    parseVal fuel s = parseVal fuel t := by
  cases fuel with
  | zero => rfl
  | succ f => simp only [parseVal, h]

/-- The element parser only looks at its input through `skipWs`. -/
theorem parseElems_congr (fuel : Nat) (s t : List Char) (h : skipWs s = skipWs t) :
    parseElems fuel s = parseElems fuel t := by
  cases fuel with
  | zero => rfl
  | succ f => simp only [parseElems, parseVal_congr f s t h]

/-- The member parser only looks at its input through `skipWs`. -/
theorem parseMems_congr (fuel : Nat) (s t : List Char) (h : skipWs s = skipWs t) :
    parseMems fuel s = parseMems fuel t := by
  cases fuel with
  | zero => rfl
  | succ f => simp only [parseMems, h]

/-- Digit characters pass the digit test. -/
theorem isDigitC_digitChar (m : Nat) : isDigitC (digitChar m) = true := by
  rcases m with _|_|_|_|_|_|_|_|_|m <;> rfl

/-- Digit value inverts digit character below ten. -/
theorem digitValC_digitChar (m : Nat) (h : m < 10) : digitValC (digitChar m) = m := by
  interval_cases m <;> rfl

/-- A digit character is not whitespace and differs from every JSON
structural character the parser dispatches on. -/
theorem digitC_facts (c : Char) (h : isDigitC c = true) :
    isWsC c = false ∧ c ≠ braceL ∧ c ≠ '[' ∧ c ≠ '"' ∧ c ≠ ']' ∧ c ≠ braceR := by
  simp only [isDigitC, Bool.or_eq_true, beq_iff_eq] at h
  rcases h with ((((((((rfl|rfl)|rfl)|rfl)|rfl)|rfl)|rfl)|rfl)|rfl)|rfl <;>
    exact ⟨rfl, of_decide_eq_true rfl, of_decide_eq_true rfl, of_decide_eq_true rfl,
      of_decide_eq_true rfl, of_decide_eq_true rfl⟩

/-- The fueled digit expansion is never empty. -/
theorem natDigitsFuel_ne_nil (fuel n : Nat) : natDigitsFuel fuel n ≠ [] := by
  cases fuel with
  | zero => simp [natDigitsFuel]
  | succ f =>
    simp only [natDigitsFuel]
    split
    · simp
    · simp

/-- The digit expansion is never empty. -/
theorem natDigits_ne_nil (n : Nat) : natDigits n ≠ [] := natDigitsFuel_ne_nil n n

/-- Every character of the fueled digit expansion is a digit. -/
theorem natDigitsFuel_all_digit (fuel : Nat) :
    ∀ n c, c ∈ natDigitsFuel fuel n → isDigitC c = true := by
  induction fuel with
  | zero =>
    intro n c hc
    simp only [natDigitsFuel, List.mem_singleton] at hc
    rw [hc]
    exact isDigitC_digitChar _
  | succ f ih =>
    intro n c hc
    simp only [natDigitsFuel] at hc
    split at hc
    · simp only [List.mem_singleton] at hc
      rw [hc]
      exact isDigitC_digitChar _
    · rcases List.mem_append.mp hc with h | h
      · exact ih _ _ h
      · simp only [List.mem_singleton] at h
        rw [h]
        exact isDigitC_digitChar _

/-- Folding one more digit onto a digit string. -/
theorem natOfDigits_append_digit (l : List Char) (c : Char) :
    natOfDigits (l ++ [c]) = 10 * natOfDigits l + digitValC c := by
  simp [natOfDigits, List.foldl_append]

/-- With enough fuel, reading back the digit expansion recovers the
number. -/
theorem natOfDigits_natDigitsFuel :
    ∀ fuel n, n ≤ fuel → natOfDigits (natDigitsFuel fuel n) = n := by
  intro fuel
  induction fuel with
  | zero =>
    intro n h
    have hz : n = 0 := by omega
    rw [hz]
    rfl
  | succ f ih =>
    intro n h
    simp only [natDigitsFuel]
    split
    · rename_i h10
      show 10 * 0 + digitValC (digitChar n) = n
      rw [digitValC_digitChar n h10]
      omega
    · rename_i h10
      rw [natOfDigits_append_digit, ih (n / 10) (by omega),
        digitValC_digitChar (n % 10) (Nat.mod_lt _ (by omega))]
      omega

/-- Reading back the digit expansion recovers the number. -/
theorem natOfDigits_natDigits (n : Nat) : natOfDigits (natDigits n) = n :=
  natOfDigits_natDigitsFuel n n (le_refl n)

/-- `takeWhile`/`dropWhile` split an all-satisfying prefix from a tail
whose head fails the predicate. -/
theorem takeWhile_append_of_all (p : Char → Bool) (l s : List Char)
    (hl : ∀ c ∈ l, p c = true) (hs : headNot p s) :
    (l ++ s).takeWhile p = l ∧ (l ++ s).dropWhile p = s := by
  induction l with
  | nil =>
    cases s with
    | nil => exact ⟨rfl, rfl⟩
    | cons c cs =>
      have hc := hs c rfl
      simp [List.takeWhile, List.dropWhile, hc]
  | cons c cs ih =>
    have hc := hl c (List.mem_cons_self c cs)
    obtain ⟨h1, h2⟩ := ih (fun d hd => hl d (List.mem_cons_of_mem _ hd))
    simp [List.takeWhile, List.dropWhile, hc, h1, h2]

/-- Every JSON value has at least one node. -/
theorem jsize_pos (j : JVal) : 1 ≤ jsize j := by
  cases j <;> simp only [jsize] <;> omega


/-- The first character of any emitted value is not whitespace and is
neither a closing bracket nor a closing brace. -/
theorem emitVal_head (j : JVal) (d : Nat) :
    ∃ c cs, emitVal j d = c :: cs ∧ isWsC c = false ∧ c ≠ ']' ∧ c ≠ braceR := by
  cases j with
  | null => exact ⟨'n', ['u', 'l', 'l'], rfl, rfl, of_decide_eq_true rfl, of_decide_eq_true rfl⟩
  | bool b =>
    cases b with
    | true => exact ⟨'t', ['r', 'u', 'e'], rfl, rfl, of_decide_eq_true rfl, of_decide_eq_true rfl⟩
    | false =>
      exact ⟨'f', ['a', 'l', 's', 'e'], rfl, rfl, of_decide_eq_true rfl, of_decide_eq_true rfl⟩
  | num n =>
    cases hnd : natDigits n with
    | nil => exact absurd hnd (natDigits_ne_nil n)
    | cons c cs =>
      have hdig : isDigitC c = true := by
        refine natDigitsFuel_all_digit n n c ?_
        rw [show natDigitsFuel n n = natDigits n from rfl, hnd]
        exact List.mem_cons_self c cs
      obtain ⟨hws, _, _, _, h5, h6⟩ := digitC_facts c hdig
      refine ⟨c, cs, ?_, hws, h5, h6⟩
      rw [show emitVal (JVal.num n) d = natDigits n from rfl, hnd]
  | str s => exact ⟨'"', s ++ ['"'], rfl, rfl, of_decide_eq_true rfl, of_decide_eq_true rfl⟩
  | arr xs =>
    cases xs with
    | nil => exact ⟨'[', [']'], rfl, rfl, of_decide_eq_true rfl, of_decide_eq_true rfl⟩
    | cons x xt =>
      exact ⟨'[', _, rfl, rfl, of_decide_eq_true rfl, of_decide_eq_true rfl⟩
  | obj ms =>
    cases ms with
    | nil => exact ⟨braceL, [braceR], rfl, rfl, of_decide_eq_true rfl, of_decide_eq_true rfl⟩
    | cons m mt =>
      exact ⟨braceL, _, rfl, rfl, of_decide_eq_true rfl, of_decide_eq_true rfl⟩

/-- Shape of a nonempty element list: indentation, the first value,
then either nothing or a separator and the remaining elements. -/
theorem emitElems_decomp (x : JVal) (xs : List JVal) (d : Nat) :
    (xs = [] ∧ emitElems (x :: xs) d = indentChars d ++ (emitVal x d ++ [])) ∨
    (∃ y ys, xs = y :: ys ∧
      emitElems (x :: xs) d =
        indentChars d ++ (emitVal x d ++ ',' :: '\n' :: emitElems (y :: ys) d)) := by
  cases xs with
  | nil => exact Or.inl ⟨rfl, by simp [emitElems]⟩
  | cons y ys => exact Or.inr ⟨y, ys, rfl, rfl⟩

/-- Skipping whitespace over emitted elements lands on the first
value's head character. -/
theorem skipWs_emitElems (x : JVal) (xs : List JVal) (d : Nat) (T : List Char) :
    ∃ c cs, skipWs (emitElems (x :: xs) d ++ T) = c :: cs ∧ isWsC c = false ∧
      c ≠ ']' ∧ c ≠ braceR := by
  obtain ⟨c, cs, hce, hws, h1, h2⟩ := emitVal_head x d
  rcases emitElems_decomp x xs d with ⟨_, heq⟩ | ⟨y, ys, _, heq⟩ <;>
  · rw [heq]
    simp only [List.append_assoc, List.append_nil]
    rw [skipWs_ws_append _ _ (indent_all_ws d), hce, List.cons_append,
      skipWs_cons_not c _ hws]
    exact ⟨c, _, rfl, hws, h1, h2⟩

/-- Shape of a nonempty member list: indentation, the quoted first key,
a colon separator, the first value, then either nothing or a separator
and the remaining members. -/
theorem emitMems_decomp (k : List Char) (v : JVal) (ms : List (List Char × JVal)) (d : Nat) :
    (ms = [] ∧ emitMems ((k, v) :: ms) d =
        indentChars d ++ ('"' :: (k ++ '"' :: ':' :: ' ' :: (emitVal v d ++ [])))) ∨
    (∃ m2 ms2, ms = m2 :: ms2 ∧
      emitMems ((k, v) :: ms) d =
        indentChars d ++
          ('"' :: (k ++ '"' :: ':' :: ' ' :: (emitVal v d ++ ',' :: '\n' :: emitMems (m2 :: ms2) d)))) := by
  cases ms with
  | nil => exact Or.inl ⟨rfl, by simp [emitMems]⟩
  | cons m2 ms2 => exact Or.inr ⟨m2, ms2, rfl, rfl⟩

/-- Skipping whitespace over emitted members lands on the opening quote
of the first key. -/
theorem skipWs_emitMems_head (k : List Char) (v : JVal) (ms : List (List Char × JVal))
    (d : Nat) (T : List Char) :
    ∃ z, skipWs (emitMems ((k, v) :: ms) d ++ T) = '"' :: z := by
  rcases emitMems_decomp k v ms d with ⟨_, heq⟩ | ⟨m2, ms2, _, heq⟩ <;>
  · rw [heq]
    simp only [List.append_assoc, List.cons_append, List.append_nil]
    rw [skipWs_ws_append _ _ (indent_all_ws d), skipWs_cons_not '"' _ rfl]
    exact ⟨_, rfl⟩

/-- The node count of a value is bounded by the length of its
serialization (elements and members need positive depth). -/
theorem jsize_emit_bound (n : Nat) :
    (∀ j d, jsize j ≤ n → jsize j ≤ (emitVal j d).length) ∧
    (∀ x xs d, jsizeL (x :: xs) ≤ n → 1 ≤ d →
      jsizeL (x :: xs) ≤ (emitElems (x :: xs) d).length) ∧
    (∀ k v ms d, jsizeM ((k, v) :: ms) ≤ n → 1 ≤ d →
      jsizeM ((k, v) :: ms) ≤ (emitMems ((k, v) :: ms) d).length) := by
  induction n using Nat.strongRecOn with
  | ind n ih =>
  refine ⟨?_, ?_, ?_⟩
  · intro j d hle
    cases j with
    | null => simp [jsize, emitVal]
    | bool b => cases b <;> simp [jsize, emitVal]
    | num m =>
      have := natDigits_ne_nil m
      have hlen : 1 ≤ (natDigits m).length := List.length_pos.mpr this
      simp only [jsize, emitVal]
      omega
    | str s => simp [jsize, emitVal]
    | arr xs =>
      cases xs with
      | nil => simp [jsize, jsizeL, emitVal]
      | cons x xt =>
        have h1 : 1 ≤ jsize x := jsize_pos x
        have hlt : jsizeL (x :: xt) < n := by
          simp only [jsize] at hle
          omega
        have hE := (ih (jsizeL (x :: xt)) hlt).2.1 x xt (d + 1) (le_refl _) (by omega)
        simp only [jsize, emitVal, List.length_cons, List.length_append]
        omega
    | obj ms =>
      cases ms with
      | nil => simp [jsize, jsizeM, emitVal]
      | cons m mt =>
        obtain ⟨k, v⟩ := m
        have h1 : 1 ≤ jsize v := jsize_pos v
        have hlt : jsizeM ((k, v) :: mt) < n := by
          simp only [jsize] at hle
          omega
        have hM := (ih (jsizeM ((k, v) :: mt)) hlt).2.2 k v mt (d + 1) (le_refl _) (by omega)
        simp only [jsize, emitVal, List.length_cons, List.length_append]
        omega
  · intro x xs d hle hd
    have hx : jsize x ≤ (emitVal x d).length := by
      refine (ih (jsize x) ?_).1 x d (le_refl _)
      cases xs with
      | nil => simp only [jsizeL] at hle ⊢; omega
      | cons y ys =>
        have := jsize_pos y
        simp only [jsizeL] at hle
        omega
    have hind : (indentChars d).length = 4 * d := by simp [indentChars]
    cases xs with
    | nil =>
      simp only [jsizeL, emitElems, List.length_append]
      omega
    | cons y ys =>
      have hy1 : 1 ≤ jsize y := jsize_pos y
      have hlt : jsizeL (y :: ys) < n := by
        have := jsize_pos x
        simp only [jsizeL] at hle ⊢
        omega
      have hE := (ih (jsizeL (y :: ys)) hlt).2.1 y ys d (le_refl _) hd
      simp only [jsizeL] at hE
      simp only [jsizeL, emitElems, List.length_append, List.length_cons]
      omega
  · intro k v ms d hle hd
    have hv : jsize v ≤ (emitVal v d).length := by
      refine (ih (jsize v) ?_).1 v d (le_refl _)
      cases ms with
      | nil => simp only [jsizeM] at hle ⊢; omega
      | cons m2 ms2 =>
        obtain ⟨k2, v2⟩ := m2
        have := jsize_pos v2
        simp only [jsizeM] at hle
        omega
    have hind : (indentChars d).length = 4 * d := by simp [indentChars]
    cases ms with
    | nil =>
      simp only [jsizeM, emitMems, List.length_append, List.length_cons]
      omega
    | cons m2 ms2 =>
      obtain ⟨k2, v2⟩ := m2
      have hv2 : 1 ≤ jsize v2 := jsize_pos v2
      have hlt : jsizeM ((k2, v2) :: ms2) < n := by
        have := jsize_pos v
        simp only [jsizeM] at hle ⊢
        omega
      have hM := (ih (jsizeM ((k2, v2) :: ms2)) hlt).2.2 k2 v2 ms2 d (le_refl _) hd
      simp only [jsizeM] at hM
      simp only [jsizeM, emitMems, List.length_append, List.length_cons]
      omega


/-- Round-trip of the parser over the serializer, simultaneously for
values, element lists and member lists, by strong induction on fuel. -/
theorem parse_emit_all (fuel : Nat) :
    (∀ j d rest, wfVal j = true → jsize j < fuel → headNot isDigitC rest →
      parseVal fuel (emitVal j d ++ rest) = some (j, rest)) ∧
    (∀ x xs d ws rest, wfElems (x :: xs) = true → jsizeL (x :: xs) < fuel →
      (∀ a ∈ ws, isWsC a = true) →
      parseElems fuel (emitElems (x :: xs) d ++ '\n' :: (ws ++ ']' :: rest)) =
        some (x :: xs, rest)) ∧
    (∀ k v ms d ws rest, wfMems ((k, v) :: ms) = true → jsizeM ((k, v) :: ms) < fuel →
      (∀ a ∈ ws, isWsC a = true) →
      parseMems fuel (emitMems ((k, v) :: ms) d ++ '\n' :: (ws ++ braceR :: rest)) =
        some ((k, v) :: ms, rest)) := by
  induction fuel using Nat.strongRecOn with
  | ind fuel ih =>
  refine ⟨?_, ?_, ?_⟩
  · intro j d rest hw hlt hrest
    cases fuel with
    | zero => exact absurd hlt (Nat.not_lt_zero _)
    | succ f =>
    have ihf := ih f (Nat.lt_succ_self f)
    cases j with
    | null => exact rfl
    | bool b => cases b with | false => exact rfl | true => exact rfl
    | num m =>
      cases hnd : natDigits m with
      | nil => exact absurd hnd (natDigits_ne_nil m)
      | cons c cs =>
        have hall : ∀ a ∈ (c :: cs), isDigitC a = true := by
          intro a ha
          refine natDigitsFuel_all_digit m m a ?_
          rw [show natDigitsFuel m m = natDigits m from rfl, hnd]
          exact ha
        have hcd : isDigitC c = true := hall c (List.mem_cons_self c cs)
        obtain ⟨hws0, hb1, hb2, hb3, _, _⟩ := digitC_facts c hcd
        have hshape : emitVal (JVal.num m) d ++ rest = c :: (cs ++ rest) := by
          rw [show emitVal (JVal.num m) d = natDigits m from rfl, hnd, List.cons_append]
        rw [hshape]
        simp only [parseVal]
        rw [skipWs_cons_not c _ hws0]
        simp only [if_neg hb1, if_neg hb2, if_neg hb3, if_pos hcd]
        obtain ⟨htk, hdr⟩ := takeWhile_append_of_all isDigitC (c :: cs) rest hall hrest
        rw [show c :: (cs ++ rest) = (c :: cs) ++ rest from rfl, htk, hdr, ← hnd,
          natOfDigits_natDigits]
    | str s =>
      have hk : ∀ a ∈ s, a ≠ '"' ∧ a ≠ '\\' := by
        refine all_chars_clean s ?_
        simpa [wfVal] using hw
      have hshape : emitVal (JVal.str s) d ++ rest = '"' :: (s ++ '"' :: rest) := by
        simp [emitVal]
      rw [hshape]
      simp only [parseVal]
      rw [skipWs_cons_not '"' _ rfl]
      simp only [if_neg (show ¬(('"' : Char) = braceL) from of_decide_eq_true rfl),
        if_neg (show ¬(('"' : Char) = '[') from of_decide_eq_true rfl),
        parseStr_append s rest hk, eq_self_iff_true, if_true]
    | arr xs =>
      cases xs with
      | nil => exact rfl
      | cons x xt =>
        have hwf : wfElems (x :: xt) = true := by simpa [wfVal] using hw
        have hsz : jsizeL (x :: xt) < f := by
          simp only [jsize] at hlt
          omega
        have helems := ihf.2.1 x xt (d + 1) (indentChars d) rest hwf hsz (indent_all_ws d)
        have hshape : emitVal (JVal.arr (x :: xt)) d ++ rest =
            '[' :: '\n' :: (emitElems (x :: xt) (d + 1) ++
              '\n' :: (indentChars d ++ ']' :: rest)) := by
          simp [emitVal]
        rw [hshape]
        obtain ⟨c, cs, hcs, hwsf, hne1, hne2⟩ :=
          skipWs_emitElems x xt (d + 1) ('\n' :: (indentChars d ++ ']' :: rest))
        have hpe : parseElems f (c :: cs) = some (x :: xt, rest) := by
          rw [parseElems_congr f (c :: cs)
            (emitElems (x :: xt) (d + 1) ++ '\n' :: (indentChars d ++ ']' :: rest))
            (by rw [skipWs_cons_not c cs hwsf, hcs])]
          exact helems
        simp only [parseVal]
        rw [skipWs_cons_not '[' _ rfl]
        simp only [if_neg (show ¬(('[' : Char) = braceL) from of_decide_eq_true rfl),
          eq_self_iff_true, if_true]
        rw [skipWs_cons_ws '\n' _ rfl, hcs]
        simp only [if_neg hne1, hpe]
    | obj ms =>
      cases ms with
      | nil => exact rfl
      | cons m mt =>
        obtain ⟨k, v⟩ := m
        have hwf : wfMems ((k, v) :: mt) = true := by simpa [wfVal] using hw
        have hsz : jsizeM ((k, v) :: mt) < f := by
          simp only [jsize] at hlt
          omega
        have hmems := ihf.2.2 k v mt (d + 1) (indentChars d) rest hwf hsz (indent_all_ws d)
        have hshape : emitVal (JVal.obj ((k, v) :: mt)) d ++ rest =
            braceL :: '\n' :: (emitMems ((k, v) :: mt) (d + 1) ++
              '\n' :: (indentChars d ++ braceR :: rest)) := by
          simp [emitVal]
        rw [hshape]
        obtain ⟨z, hz⟩ := skipWs_emitMems_head k v mt (d + 1)
          ('\n' :: (indentChars d ++ braceR :: rest))
        have hpm : parseMems f ('"' :: z) = some ((k, v) :: mt, rest) := by
          rw [parseMems_congr f ('"' :: z)
            (emitMems ((k, v) :: mt) (d + 1) ++ '\n' :: (indentChars d ++ braceR :: rest))
            (by rw [skipWs_cons_not '"' z rfl, hz])]
          exact hmems
        simp only [parseVal]
        rw [skipWs_cons_not braceL _ rfl]
        simp only [eq_self_iff_true, if_true]
        rw [skipWs_cons_ws '\n' _ rfl, hz]
        simp only [if_neg (show ¬(('"' : Char) = braceR) from of_decide_eq_true rfl), hpm]
  · intro x xs d ws rest hw hlt hws
    cases fuel with
    | zero => exact absurd hlt (Nat.not_lt_zero _)
    | succ f =>
    have ihf := ih f (Nat.lt_succ_self f)
    rw [wfElems, Bool.and_eq_true] at hw
    rcases emitElems_decomp x xs d with ⟨hnil, heq⟩ | ⟨y, ys, hcons, heq⟩
    · subst hnil
      have hszx : jsize x < f := by
        simp only [jsizeL] at hlt
        omega
      have hv := ihf.1 x d ('\n' :: (ws ++ ']' :: rest)) hw.1 hszx
        (headNot_cons _ '\n' _ rfl)
      have hv2 : parseVal f (emitElems [x] d ++ '\n' :: (ws ++ ']' :: rest)) =
          some (x, '\n' :: (ws ++ ']' :: rest)) := by
        rw [parseVal_congr f (emitElems [x] d ++ '\n' :: (ws ++ ']' :: rest))
          (emitVal x d ++ '\n' :: (ws ++ ']' :: rest))
          (by rw [heq]
              simp only [List.append_nil, List.append_assoc]
              exact skipWs_ws_append _ _ (indent_all_ws d))]
        exact hv
      simp only [parseElems, hv2]
      rw [skipWs_nl_ws ws ']' rest hws rfl]
      simp only [if_neg (show ¬((']' : Char) = ',') from of_decide_eq_true rfl),
        eq_self_iff_true, if_true]
    · subst hcons
      have hszx : jsize x < f := by
        simp only [jsizeL] at hlt
        omega
      have hszy : jsizeL (y :: ys) < f := by
        have := jsize_pos x
        simp only [jsizeL] at hlt ⊢
        omega
      have hv := ihf.1 x d
        (',' :: '\n' :: (emitElems (y :: ys) d ++ '\n' :: (ws ++ ']' :: rest)))
        hw.1 hszx (headNot_cons _ ',' _ rfl)
      have hv2 : parseVal f (emitElems (x :: y :: ys) d ++ '\n' :: (ws ++ ']' :: rest)) =
          some (x, ',' :: '\n' :: (emitElems (y :: ys) d ++ '\n' :: (ws ++ ']' :: rest))) := by
        rw [parseVal_congr f (emitElems (x :: y :: ys) d ++ '\n' :: (ws ++ ']' :: rest))
          (emitVal x d ++ ',' :: '\n' :: (emitElems (y :: ys) d ++ '\n' :: (ws ++ ']' :: rest)))
          (by rw [heq]
              simp only [List.append_assoc, List.cons_append]
              exact skipWs_ws_append _ _ (indent_all_ws d))]
        exact hv
      have he2 : parseElems f
          ('\n' :: (emitElems (y :: ys) d ++ '\n' :: (ws ++ ']' :: rest))) =
          some (y :: ys, rest) := by
        rw [parseElems_congr f ('\n' :: (emitElems (y :: ys) d ++ '\n' :: (ws ++ ']' :: rest)))
          (emitElems (y :: ys) d ++ '\n' :: (ws ++ ']' :: rest))
          (skipWs_cons_ws '\n' _ rfl)]
        exact ihf.2.1 y ys d ws rest hw.2 hszy hws
      simp only [parseElems, hv2]
      rw [skipWs_cons_not ',' _ rfl]
      simp only [eq_self_iff_true, if_true, he2]
  · intro k v ms d ws rest hw hlt hws
    cases fuel with
    | zero => exact absurd hlt (Nat.not_lt_zero _)
    | succ f =>
    have ihf := ih f (Nat.lt_succ_self f)
    rw [wfMems, Bool.and_eq_true, Bool.and_eq_true] at hw
    have hk : ∀ a ∈ k, a ≠ '"' ∧ a ≠ '\\' := all_chars_clean k hw.1.1
    rcases emitMems_decomp k v ms d with ⟨hnil, heq⟩ | ⟨m2, ms2, hcons, heq⟩
    · subst hnil
      have hszv : jsize v < f := by
        simp only [jsizeM] at hlt
        omega
      have hv := ihf.1 v d ('\n' :: (ws ++ braceR :: rest)) hw.1.2 hszv
        (headNot_cons _ '\n' _ rfl)
      have hv2 : parseVal f (' ' :: (emitVal v d ++ '\n' :: (ws ++ braceR :: rest))) =
          some (v, '\n' :: (ws ++ braceR :: rest)) := by
        rw [parseVal_congr f (' ' :: (emitVal v d ++ '\n' :: (ws ++ braceR :: rest)))
          (emitVal v d ++ '\n' :: (ws ++ braceR :: rest))
          (skipWs_cons_ws ' ' _ rfl)]
        exact hv
      simp only [parseMems]
      rw [heq]
      simp only [List.append_nil, List.append_assoc, List.cons_append]
      rw [skipWs_ws_append _ _ (indent_all_ws d), skipWs_cons_not '"' _ rfl]
      simp only [eq_self_iff_true, if_true,
        parseStr_append k (':' :: ' ' :: (emitVal v d ++ '\n' :: (ws ++ braceR :: rest))) hk]
      rw [skipWs_cons_not ':' _ rfl]
      simp only [eq_self_iff_true, if_true, hv2]
      rw [skipWs_nl_ws ws braceR rest hws rfl]
      simp only [if_neg (show ¬(braceR = ',') from of_decide_eq_true rfl),
        eq_self_iff_true, if_true]
    · subst hcons
      obtain ⟨k2, v2⟩ := m2
      have hszv : jsize v < f := by
        simp only [jsizeM] at hlt
        have := jsize_pos v2
        omega
      have hszm : jsizeM ((k2, v2) :: ms2) < f := by
        have := jsize_pos v
        simp only [jsizeM] at hlt ⊢
        omega
      have hv := ihf.1 v d
        (',' :: '\n' :: (emitMems ((k2, v2) :: ms2) d ++ '\n' :: (ws ++ braceR :: rest)))
        hw.1.2 hszv (headNot_cons _ ',' _ rfl)
      have hv2 : parseVal f (' ' :: (emitVal v d ++ ',' :: '\n' ::
          (emitMems ((k2, v2) :: ms2) d ++ '\n' :: (ws ++ braceR :: rest)))) =
          some (v, ',' :: '\n' ::
            (emitMems ((k2, v2) :: ms2) d ++ '\n' :: (ws ++ braceR :: rest))) := by
        rw [parseVal_congr f (' ' :: (emitVal v d ++ ',' :: '\n' ::
            (emitMems ((k2, v2) :: ms2) d ++ '\n' :: (ws ++ braceR :: rest))))
          (emitVal v d ++ ',' :: '\n' ::
            (emitMems ((k2, v2) :: ms2) d ++ '\n' :: (ws ++ braceR :: rest)))
          (skipWs_cons_ws ' ' _ rfl)]
        exact hv
      have hm2 : parseMems f
          ('\n' :: (emitMems ((k2, v2) :: ms2) d ++ '\n' :: (ws ++ braceR :: rest))) =
          some ((k2, v2) :: ms2, rest) := by
        rw [parseMems_congr f
          ('\n' :: (emitMems ((k2, v2) :: ms2) d ++ '\n' :: (ws ++ braceR :: rest)))
          (emitMems ((k2, v2) :: ms2) d ++ '\n' :: (ws ++ braceR :: rest))
          (skipWs_cons_ws '\n' _ rfl)]
        exact ihf.2.2 k2 v2 ms2 d ws rest hw.2 hszm hws
      simp only [parseMems]
      rw [heq]
      simp only [List.append_assoc, List.cons_append]
      rw [skipWs_ws_append _ _ (indent_all_ws d), skipWs_cons_not '"' _ rfl]
      simp only [eq_self_iff_true, if_true,
        parseStr_append k (':' :: ' ' :: (emitVal v d ++ ',' :: '\n' ::
          (emitMems ((k2, v2) :: ms2) d ++ '\n' :: (ws ++ braceR :: rest)))) hk]
      rw [skipWs_cons_not ':' _ rfl]
      simp only [eq_self_iff_true, if_true, hv2]
      rw [skipWs_cons_not ',' _ rfl]
      simp only [eq_self_iff_true, if_true, hm2]


/-- Parsing the canonical serialization of a well-formed document
recovers the document. -/
theorem json_roundtrip (j : JVal) (hw : wfVal j = true) :
    json_loads (json_dumps j) = some j := by
  have hb := (jsize_emit_bound (jsize j)).1 j 0 (le_refl _)
  have hlen : (json_dumps j).length = (emitVal j 0).length := rfl
  have hsz : jsize j < (json_dumps j).length + 1 := by omega
  have h1 := (parse_emit_all ((json_dumps j).length + 1)).1 j 0 [] hw hsz (headNot_nil _)
  rw [List.append_nil] at h1
  have htl : (json_dumps j).toList = emitVal j 0 := rfl
  simp only [json_loads, htl, h1]
  rfl

/-- C9 counterexample: a compact one-line manifest file parses, but the
exit-time persist re-serializes it with `indent=4`, so the bytes written
back differ from the original file. -/
theorem manifest_roundtrip_not_byte_identical_counterexample :
    load_then_persist c9Compact = some c9Canonical ∧ c9Canonical ≠ c9Compact :=
  ⟨rfl, of_decide_eq_true rfl⟩

/-- C9 (amended): load-then-persist is byte-identical exactly on files
already in the canonical `json.dump(..., indent=4)` form: for every
well-formed document, persisting its canonical serialization after a
load reproduces that serialization byte for byte. -/
theorem manifest_roundtrip_canonical_form (j : JVal) (hw : wfVal j = true) :
    load_then_persist (json_dumps j) = some (json_dumps j) := by
  simp [load_then_persist, json_roundtrip j hw]

/-- C9 witness: the amended round-trip at a concrete manifest-shaped
document. -/
theorem manifest_roundtrip_canonical_form_witness :
    wfVal c9wJson = true ∧ load_then_persist (json_dumps c9wJson) = some (json_dumps c9wJson) :=
  ⟨rfl, manifest_roundtrip_canonical_form c9wJson rfl⟩

end ModUpdater




